import Mathlib

/-!
# Verification of the bprof timing-attribution engine (src/src/demo.cpp)

This file is a shallow embedding of the event-driven timing attribution
engine of the bprof line profiler.  Durations are modelled as natural
numbers of nanoseconds (`std::chrono::nanoseconds` counts).  The
high-resolution clock is externalised: each dispatched event carries the
elapsed interval `elapsed() = last_instruction_end_ - last_instruction_start_`
that the C++ code would compute from two `clock::now()` samples, so a run
of the engine is a fold over a list of `(event, elapsedNanoseconds)` pairs.

The CPython collaborators are externalised as well:
* `Provider` stands for the `inspect.getsourcelines` metadata provider and
  `PyFrame_GetName` (source lines, first line number and name per code
  object, identified by a `Nat` standing for the `PyCodeObject*`);
* `CTarget` stands for a native callable delivered with a `PyTrace_C_CALL`
  event; `CTarget.pstr` is the result of `PyObject_Str(arg)`.

Fallible C++ operations are modelled in `Except String`:
`std::vector::at` / `std::unordered_map::at` out-of-range accesses and
`std::stack::top`/`pop` on an empty stack become `.error` results.
`size_t` index arithmetic (`current_line_ - starting_line_ - 1`, which
wraps modulo 2^64) is modelled by `stIdx` below.
-/

/-- 2^64, the modulus of `size_t` arithmetic on the reference platform. -/
def wordMod : Nat := 18446744073709551616

/-- `size_t` evaluation of `cur - st - 1` as it appears in
`FrameState::current_line` (demo.cpp:127): subtraction wraps modulo 2^64. -/
def stIdx (cur st : Nat) : Nat :=
  ((cur % wordMod) + (wordMod - (st + 1) % wordMod)) % wordMod

/-- One per-line accumulator pair of an active invocation
(class `LineState`, demo.cpp:105-116).  Both start at zero. -/
structure LineState where
  internal : Nat := 0
  external : Nat := 0
deriving DecidableEq, Repr

/-- A native callable as delivered by a `PyTrace_C_CALL` event.  `id`
stands for the identity of the underlying `PyObject*`; `pstr` is its
printed representation `PyObject_Str(arg)` (demo.cpp:341-343), the only
part of the target the engine ever records. -/
structure CTarget where
  id : Nat
  pstr : String
deriving DecidableEq, Repr

/-- The external source-metadata collaborator: `inspect.getsourcelines`
(source lines and first line number per code object, demo.cpp:396-422)
and `PyFrame_GetName` (demo.cpp:16-22). -/
structure Provider where
  src : Nat → List String
  firstLine : Nat → Nat
  fname : Nat → String

/-- `enum class Instruction` (demo.cpp:93-103). -/
inductive Instruction where
  | kOrigin
  | kLine
  | kCall
  | kReturn
  | kException
  | kCCall
  | kCReturn
  | kCException
  | kInvalid
deriving DecidableEq, Repr

/-- The line-resolved callable record (class `FunctionRec`, demo.cpp:40-91):
persistent per-identity accumulators.  `internal_time` is the inherited
`BaseFunction` overhead accumulator; `line_time` is the per-line external
array and `line_time_internal` the per-line internal array, both sized to
`lines.length` by the constructor (demo.cpp:85-91). -/
structure FunctionRec where
  name : String
  internal_time : Nat := 0
  lines : List String
  line_time : List Nat
  line_time_internal : List Nat
deriving DecidableEq, Repr

/-- The aggregate-only record used for native callables
(class `BaseFunction`, demo.cpp:27-38). -/
structure BaseFunction where
  name : String
  internal_time : Nat := 0
deriving DecidableEq, Repr

/-- One active invocation on the call stack (class `FrameState`,
demo.cpp:118-141). `current_line` is `0` until the first line event for
this invocation (`size_t current_line_ = 0`). -/
structure FrameState where
  starting_line : Nat
  current_line : Nat := 0
  function_key : Nat
  lines : List LineState
  internal : Nat := 0
deriving DecidableEq, Repr

/-- The engine state (the data members of class `Module`,
demo.cpp:190-198).  The two unordered maps are modelled as association
lists in insertion order; the `std::stack` is a list whose head is the
top. -/
structure ModuleState where
  functions : List (Nat × FunctionRec)
  c_functions : List (String × BaseFunction)
  frame_stack : List FrameState
  last_instruction : Instruction
  last_c_name : String
deriving DecidableEq, Repr

/-- Lookup in an association list (`unordered_map::find`/`count`). -/
def alookup {κ β : Type} [DecidableEq κ] : List (κ × β) → κ → Option β
  | [], _ => none
  | (k, v) :: l, k' => if k' = k then some v else alookup l k'

/-- Replace the value stored at a key (mutation through
`unordered_map::at`).  Keys are unique in all states the engine builds,
so replacing the first occurrence is the map update. -/
def aset {κ β : Type} [DecidableEq κ] : List (κ × β) → κ → β → List (κ × β)
  | [], _, _ => []
  | (k, v) :: l, k', v' => if k' = k then (k, v') :: l else (k, v) :: aset l k' v'

/-- `FunctionRec::add_elapsed` (demo.cpp:62-64):
`line_time_.at(line_number) += time`; `at` throws when out of range. -/
def FunctionRec.add_elapsed (f : FunctionRec) (line_number t : Nat) : Except String FunctionRec :=
  match f.line_time.get? line_number with
  | some v => .ok { f with line_time := f.line_time.set line_number (v + t) }
  | none => .error "vector_at_out_of_range"

/-- `FunctionRec::add_elapsed_internal(size_t, duration)` (demo.cpp:66-68):
`line_time_internal_.at(line_number) += time`. -/
def FunctionRec.add_elapsed_internal (f : FunctionRec) (line_number t : Nat) : Except String FunctionRec :=
  match f.line_time_internal.get? line_number with
  | some v => .ok { f with line_time_internal := f.line_time_internal.set line_number (v + t) }
  | none => .error "vector_at_out_of_range"

/-- `BaseFunction::add_elapsed_internal` (demo.cpp:70-73) as inherited by
`FunctionRec` (`using BaseFunction::add_elapsed_internal`): overall overhead
accumulation.  The `std::cout` debug print has no state effect. -/
def FunctionRec.add_elapsed_internal_total (f : FunctionRec) (t : Nat) : FunctionRec :=
  { f with internal_time := f.internal_time + t }

/-- `BaseFunction::add_elapsed_internal` (demo.cpp:70-73) on a native
callable record. -/
def BaseFunction.add_elapsed_internal (f : BaseFunction) (t : Nat) : BaseFunction :=
  { f with internal_time := f.internal_time + t }

/-- The `size_t` index `current_line_ - starting_line_ - 1` used by
`FrameState::current_line` (demo.cpp:127). -/
def FrameState.currentIdx (f : FrameState) : Nat :=
  stIdx f.current_line f.starting_line

/-- `frame.current_line().add_internal(t)`: `lines_.at(idx)` followed by
the `LineState` mutation; `at` throws when the index is out of range. -/
def FrameState.addInternalCurrent (f : FrameState) (t : Nat) : Except String FrameState :=
  match f.lines.get? f.currentIdx with
  | some ls => .ok { f with lines := f.lines.set f.currentIdx { ls with internal := ls.internal + t } }
  | none => .error "vector_at_out_of_range"

/-- `frame.current_line().add_external(t)`. -/
def FrameState.addExternalCurrent (f : FrameState) (t : Nat) : Except String FrameState :=
  match f.lines.get? f.currentIdx with
  | some ls => .ok { f with lines := f.lines.set f.currentIdx { ls with external := ls.external + t } }
  | none => .error "vector_at_out_of_range"

/-- `FrameState::add_internal` (demo.cpp:130): per-invocation overhead. -/
def FrameState.add_internal (f : FrameState) (t : Nat) : FrameState :=
  { f with internal := f.internal + t }

/-- `FrameState::total_time` (demo.cpp:143-150): the sum over the
invocation's lines of `internal + external`.  Note that the invocation's
own `internal_` overhead accumulator is not included. -/
def FrameState.total_time (f : FrameState) : Nat :=
  f.lines.foldl (fun acc l => acc + l.internal + l.external) 0

/-- `Module::get_lines` (demo.cpp:396-422): the list of source lines of a
code object.  The copying loop starts at index `i = 1`, so the first line
returned by `inspect.getsourcelines` is dropped.  The starting line
number (second tuple item) is `Provider.firstLine`. -/
def getLinesList (P : Provider) (code : Nat) : List String :=
  (P.src code).drop 1

/-- The events `Module::profile` can receive (the `what` values of
demo.cpp:289-314 together with the data the handlers read from `frame` /
`arg`).  Every event carries the `f_code` identity of the frame it is
reported against; line events carry `PyFrame_GetLineNumber`; foreign-call
events carry the native target. -/
inductive Event where
  | line (code : Nat) (lineNo : Nat)
  | call (code : Nat)
  | ret (code : Nat)
  | ccall (code : Nat) (target : CTarget)
  | cret (code : Nat)
  | exc (code : Nat)
  | cexc (code : Nat)
  | opcode (code : Nat)
deriving DecidableEq, Repr

/-- The `f_code` of the frame an event is reported against. -/
def Event.code : Event → Nat
  | .line c _ => c
  | .call c => c
  | .ret c => c
  | .ccall c _ => c
  | .cret c => c
  | .exc c => c
  | .cexc c => c
  | .opcode c => c

/-- `Module::emplace_frame` (demo.cpp:210-214): push a fresh `FrameState`
sized to the callable's (first-line-dropped) line count, with
`current_line = 0`. -/
def emplace_frame (P : Provider) (s : ModuleState) (code : Nat) : ModuleState :=
  let lines := getLinesList P code
  { s with frame_stack :=
      { starting_line := P.firstLine code
        current_line := 0
        function_key := code
        lines := List.replicate lines.length {}
        internal := 0 } :: s.frame_stack }

/-- `Module::add_function` (demo.cpp:424-434): create the `FunctionRec`
record lazily; an existing record for the identity is left untouched. -/
def add_function (P : Provider) (s : ModuleState) (code : Nat) : ModuleState :=
  if (alookup s.functions code).isSome then s
  else
    let lines := getLinesList P code
    { s with functions := s.functions ++
        [(code, { name := P.fname code
                  internal_time := 0
                  lines := lines
                  line_time := List.replicate lines.length 0
                  line_time_internal := List.replicate lines.length 0 })] }

/-- `Module::add_c_function` (demo.cpp:436-439): `emplace` never
overwrites — an existing record keeps its accumulator. -/
def add_c_function (s : ModuleState) (name : String) : ModuleState :=
  if (alookup s.c_functions name).isSome then s
  else { s with c_functions := s.c_functions ++ [(name, { name := name, internal_time := 0 })] }

/-- The body of the per-line fold loop of `Module::pop_frame`
(demo.cpp:382-386).  Faithful to the source: the loop variable
`size_t i = 0` is declared before the range-for over `frame.lines()` and
is never incremented, so every iteration passes `0` to `add_elapsed` and
`add_elapsed_internal`. -/
def foldStep (fn : FunctionRec) (l : LineState) : Except String FunctionRec := do
  let fn ← fn.add_elapsed 0 l.external
  fn.add_elapsed_internal 0 l.internal

/-- `Module::pop_frame` (demo.cpp:378-394): fold the top invocation into
its record (overhead, then the per-line loop `foldStep`), then pop it and
propagate its `total_time()` as external time of the caller's current
line when the stack remains non-empty. -/
def pop_frame (s : ModuleState) : Except String ModuleState := do
  match s.frame_stack with
  | [] => .error "stack_top_empty"
  | frame :: rest =>
    match alookup s.functions frame.function_key with
    | none => .error "map_at_out_of_range"
    | some function0 =>
      let function1 := function0.add_elapsed_internal_total frame.internal
      let function2 ← frame.lines.foldlM foldStep function1
      let total := frame.total_time
      let s1 : ModuleState :=
        { s with functions := aset s.functions frame.function_key function2
                 frame_stack := rest }
      match rest with
      | [] => .ok s1
      | top :: rest' => do
        let top' ← top.addExternalCurrent total
        .ok { s1 with frame_stack := top' :: rest' }

/-- `Module::finish_line` (demo.cpp:354-359). -/
def finish_line (s : ModuleState) (t : Nat) : Except String ModuleState :=
  match s.frame_stack with
  | [] => .ok s
  | top :: rest => do
    let top' ← top.addInternalCurrent t
    .ok { s with frame_stack := top' :: rest }

/-- `Module::finish_call` (demo.cpp:325-327): the elapsed interval is
charged to the overhead of the record keyed by the incoming event's
`frame->f_code`; `unordered_map::at` throws when the key is missing. -/
def finish_call (s : ModuleState) (code : Nat) (t : Nat) : Except String ModuleState :=
  match alookup s.functions code with
  | none => .error "map_at_out_of_range"
  | some fn => .ok { s with functions := aset s.functions code (fn.add_elapsed_internal_total t) }

/-- `Module::finish_return` (demo.cpp:365-368): charge the elapsed
interval to the top invocation's overhead, then fold and pop it.
`std::stack::top` on an empty stack is a fatal protocol violation. -/
def finish_return (s : ModuleState) (t : Nat) : Except String ModuleState :=
  match s.frame_stack with
  | [] => .error "stack_top_empty"
  | top :: rest => pop_frame { s with frame_stack := top.add_internal t :: rest }

/-- `Module::finish_ccall` (demo.cpp:349-352): charge the elapsed
interval to the pending foreign record's overhead and to the external
accumulator of the top invocation's current line. -/
def finish_ccall (s : ModuleState) (t : Nat) : Except String ModuleState :=
  match alookup s.c_functions s.last_c_name with
  | none => .error "map_at_out_of_range"
  | some bf =>
    let s1 := { s with c_functions := aset s.c_functions s.last_c_name (bf.add_elapsed_internal t) }
    match s1.frame_stack with
    | [] => .error "stack_top_empty"
    | top :: rest => do
      let top' ← top.addExternalCurrent t
      .ok { s1 with frame_stack := top' :: rest }

/-- `Module::finish_creturn` (demo.cpp:374-376): charge the elapsed
interval to the top invocation's overhead. -/
def finish_creturn (s : ModuleState) (t : Nat) : Except String ModuleState :=
  match s.frame_stack with
  | [] => .error "stack_top_empty"
  | top :: rest => .ok { s with frame_stack := top.add_internal t :: rest }

/-- `Module::profile_line` (demo.cpp:329-338): record `kLine`, then (if
the stack is non-empty) set the top invocation's current line. -/
def profile_line (s : ModuleState) (lineNo : Nat) : ModuleState :=
  let s1 := { s with last_instruction := .kLine }
  match s1.frame_stack with
  | [] => s1
  | top :: rest => { s1 with frame_stack := { top with current_line := lineNo } :: rest }

/-- `Module::profile_call` (demo.cpp:318-323): lazily create the record,
push a fresh invocation, record `kCall`. -/
def profile_call (P : Provider) (s : ModuleState) (code : Nat) : ModuleState :=
  let s1 := add_function P s code
  let s2 := emplace_frame P s1 code
  { s2 with last_instruction := .kCall }

/-- `Module::profile_return` (demo.cpp:361-363). -/
def profile_return (s : ModuleState) : ModuleState :=
  { s with last_instruction := .kReturn }

/-- `Module::profile_c_call` (demo.cpp:340-347): remember the printed
representation of the target as the pending foreign-call name, register
the record, record `kCCall`. -/
def profile_c_call (s : ModuleState) (target : CTarget) : ModuleState :=
  let s1 := { s with last_c_name := target.pstr }
  let s2 := add_c_function s1 target.pstr
  { s2 with last_instruction := .kCCall }

/-- `Module::profile_c_return` (demo.cpp:370-372). -/
def profile_c_return (s : ModuleState) : ModuleState :=
  { s with last_instruction := .kCReturn }

/-- The finish phase of `Module::profile` (the first switch,
demo.cpp:260-287), keyed by the previously recorded instruction; the
incoming event supplies the frame of reference (`finish_call` reads its
`f_code`).  `kException` and `kCException` have empty case bodies. -/
def finishStep (s : ModuleState) (e : Event) (t : Nat) : Except String ModuleState :=
  match s.last_instruction with
  | .kOrigin => .ok s
  | .kLine => finish_line s t
  | .kCall => finish_call s e.code t
  | .kReturn => finish_return s t
  | .kException => .ok s
  | .kCCall => finish_ccall s t
  | .kCReturn => finish_creturn s t
  | .kCException => .ok s
  | .kInvalid => .ok s

/-- The begin phase of `Module::profile` (the second switch,
demo.cpp:289-314).  `PyTrace_EXCEPTION` and `PyTrace_OPCODE` have empty
case bodies (in particular they leave `last_instruction_` unchanged);
`PyTrace_C_EXCEPTION` is dispatched to `profile_c_return` exactly like
`PyTrace_C_RETURN`. -/
def beginStep (P : Provider) (s : ModuleState) (e : Event) : ModuleState :=
  match e with
  | .line _ lineNo => profile_line s lineNo
  | .call code => profile_call P s code
  | .ret _ => profile_return s
  | .ccall _ target => profile_c_call s target
  | .cret _ => profile_c_return s
  | .exc _ => s
  | .cexc _ => profile_c_return s
  | .opcode _ => s

/-- `Module::profile` (demo.cpp:257-316): finish the previous
instruction using the elapsed interval, then begin the incoming event. -/
def profile (P : Provider) (e : Event) (t : Nat) (s : ModuleState) : Except String ModuleState := do
  let s1 ← finishStep s e t
  .ok (beginStep P s1 e)

/-- A run of the engine over a list of `(event, elapsed)` pairs. -/
def runTrace (P : Provider) (s : ModuleState) (tr : List (Event × Nat)) :
    Except String ModuleState :=
  tr.foldlM (fun s p => profile P p.1 p.2 s) s

/-- `Module::Module` (demo.cpp:201-203): empty stores, empty stack,
`last_instruction_ = kInvalid`, empty pending foreign name. -/
def initState : ModuleState :=
  { functions := []
    c_functions := []
    frame_stack := []
    last_instruction := .kInvalid
    last_c_name := "" }

/-- `Module::start` (demo.cpp:216-221): sets `last_instruction_ = kOrigin`
and installs the profile/trace hooks (`PyEval_SetProfile` /
`PyEval_SetTrace` act on the interpreter, not on the `Module` state). -/
def Module.start (s : ModuleState) : ModuleState :=
  { s with last_instruction := .kOrigin }

/-- `Module::stop` (demo.cpp:226-229): uninstalls the hooks; no `Module`
member is touched. -/
def Module.stop (s : ModuleState) : ModuleState :=
  s

/-- One emitted report record of `Module::dump` (demo.cpp:231-255),
abstracted at the level of what is streamed: a header per callable
(name, overhead in nanoseconds) and, for line-resolved callables, one
item per line carrying `total = external + internal`, the internal and
external components, and the line's text.  The fixed-stream floating
point rendering (`count()/1e9`) is display-only and a function of these
nanosecond counts. -/
inductive RItem where
  | header (name : String) (overheadNs : Nat)
  | lineItem (totalNs internalNs externalNs : Nat) (text : String)
deriving DecidableEq, Repr

/-- The per-function block of `Module::dump` (demo.cpp:232-246): header,
then for `i < lines.size()` the triple read through `line_time().at(i)`
and `line_time_internal().at(i)` alongside `lines.at(i)`. -/
def reportFunction (f : FunctionRec) : Except String (List RItem) := do
  let items ← (List.range f.lines.length).mapM
    (fun i =>
      match f.line_time.get? i, f.line_time_internal.get? i, f.lines.get? i with
      | some ext, some intl, some line => .ok (RItem.lineItem (ext + intl) intl ext line)
      | _, _, _ => .error "vector_at_out_of_range")
  .ok (RItem.header f.name f.internal_time :: items)

/-- `Module::dump` (demo.cpp:231-255): stream every interpreted record,
then every foreign record, to the fixed standard output stream, and
return `0`.  The `path` parameter is accepted and never read — exactly
as in the source, whose body does not mention `path`. -/
def Module.dump (s : ModuleState) (path : String) : Except String (List RItem × Nat) := do
  let fItems ← s.functions.foldlM (fun acc p => do
      let its ← reportFunction p.2
      .ok (acc ++ its)) ([] : List RItem)
  let cItems := s.c_functions.map (fun p => RItem.header p.2.name p.2.internal_time)
  .ok (fItems ++ cItems, 0)

/-- Whether a reported line number is inside the body of a callable:
`firstLine + 1 ≤ x` (the first source line is dropped by `get_lines`)
and `ln < firstLine + (source line count)`. -/
def inRange (P : Provider) (code ln : Nat) : Bool :=
  decide (P.firstLine code + 1 ≤ ln) && decide (ln < P.firstLine code + (P.src code).length)

/-- Well-formedness of an event trace, the guarantees of the CPython
event source (spec section 6): proper call/return nesting over a ghost
stack of code identities; every call event immediately followed by the
first line event of the callee (`mustLine` carries that obligation);
line events reported against the executing callable with a body line
number; foreign call/return events only while some invocation is
executing.  Exception and opcode events do not occur in well-formed
streams. -/
def wfAux (P : Provider) : List Nat → Option Nat → List (Event × Nat) → Bool
  | _, _, [] => true
  | g, some c, (e, _) :: rest =>
    match e with
    | .line c' ln => decide (c' = c) && inRange P c ln && wfAux P g none rest
    | _ => false
  | g, none, (e, _) :: rest =>
    match e with
    | .line c ln =>
      (match g with
       | [] => true
       | c' :: _ => decide (c = c') && inRange P c ln) && wfAux P g none rest
    | .call c => wfAux P (c :: g) (some c) rest
    | .ret c =>
      (match g with
       | [] => false
       | c' :: g' => decide (c = c') && wfAux P g' none rest)
    | .ccall _ _ => !g.isEmpty && wfAux P g none rest
    | .cret _ => !g.isEmpty && wfAux P g none rest
    | .exc _ => false
    | .cexc _ => false
    | .opcode _ => false

/-- The ghost call stack after a trace (pushes at call, pops at return,
matching `wfAux`). -/
def gAfter : List Nat → List (Event × Nat) → List Nat
  | g, [] => g
  | g, (e, _) :: rest =>
    match e with
    | .call c => gAfter (c :: g) rest
    | .ret _ => gAfter g.tail rest
    | _ => gAfter g rest

/-- The pending first-line obligation after a trace. -/
def mlAfter : Option Nat → List (Event × Nat) → Option Nat
  | ml, [] => ml
  | _, (e, _) :: rest =>
    match e with
    | .call c => mlAfter (some c) rest
    | _ => mlAfter none rest

/-- The metadata provider yields line counts and starting lines that fit
in `size_t` (true of any data coming out of CPython). -/
def Provider.wellSized (P : Provider) : Prop :=
  ∀ code, P.firstLine code + (P.src code).length < wordMod

/-- Structural health of an active invocation: its starting line and its
line-slot count agree with the metadata provider for its identity. -/
def goodFrame (P : Provider) (f : FrameState) : Prop :=
  f.starting_line = P.firstLine f.function_key ∧
  f.lines.length = (getLinesList P f.function_key).length

/-- The invocation's current line has been observed and is a body line,
so `current_line - starting_line - 1` is a valid slot. -/
def goodCur (P : Provider) (f : FrameState) : Prop :=
  f.starting_line + 1 ≤ f.current_line ∧
  f.current_line < f.starting_line + (P.src f.function_key).length

/-- Structural health of a `FunctionRec` record: its stored lines are the
provider's (first-dropped) snapshot for its key and both accumulator
arrays have that length. -/
def goodFun (P : Provider) (code : Nat) (fn : FunctionRec) : Prop :=
  fn.lines = getLinesList P code ∧
  fn.line_time.length = fn.lines.length ∧
  fn.line_time_internal.length = fn.lines.length

/-- The concrete metadata provider used by the concrete scenario runs:
code object `0` is a caller whose source starts at line 10 with three
source lines (two body lines), code object `1` is a callee whose source
starts at line 20 with three source lines. -/
def Pdemo : Provider where
  src := fun c =>
    if c = 0 then ["def caller():", "  line11", "  line12"]
    else if c = 1 then ["def callee():", "  line21", "  line22"]
    else []
  firstLine := fun c => if c = 0 then 10 else if c = 1 then 20 else 0
  fname := fun c => if c = 0 then "caller" else if c = 1 then "callee" else "?"

theorem stIdx_eq (cur st : Nat) (h1 : st + 1 ≤ cur) (h2 : cur < wordMod) :
    stIdx cur st = cur - st - 1 := by
  have hst : (st + 1) % wordMod = st + 1 := Nat.mod_eq_of_lt (lt_of_le_of_lt h1 h2)
  have hcur : cur % wordMod = cur := Nat.mod_eq_of_lt h2
  unfold stIdx
  rw [hst, hcur]
  have h3 : cur + (wordMod - (st + 1)) = wordMod + (cur - st - 1) := by
    have : st + 1 ≤ wordMod := by omega
    omega
  rw [h3, Nat.add_mod_left]
  exact Nat.mod_eq_of_lt (by omega)

theorem stIdx_big (cur st len : Nat) (h1 : cur ≤ st) (h2 : st + 1 + len ≤ wordMod) :
    len ≤ stIdx cur st := by
  rcases Nat.lt_or_ge (st + 1) wordMod with h | h
  · have hcur : cur % wordMod = cur := Nat.mod_eq_of_lt (by omega)
    have hst : (st + 1) % wordMod = st + 1 := Nat.mod_eq_of_lt h
    unfold stIdx
    rw [hcur, hst]
    have hlt : cur + (wordMod - (st + 1)) < wordMod := by omega
    rw [Nat.mod_eq_of_lt hlt]
    omega
  · omega

theorem getq_set_self {α : Type} (l : List α) (i : Nat) (v : α) (h : i < l.length) :
    (l.set i v).get? i = some v := by
  induction l generalizing i with
  | nil => simp at h
  | cons x xs ih =>
    cases i with
    | zero => rfl
    | succ n => simpa using ih n (by simpa using h)

theorem getq_set_ne {α : Type} (l : List α) (i j : Nat) (v : α) (h : i ≠ j) :
    (l.set i v).get? j = l.get? j := by
  induction l generalizing i j with
  | nil => simp
  | cons x xs ih =>
    cases i with
    | zero => cases j with
      | zero => exact absurd rfl h
      | succ m => simp
    | succ n => cases j with
      | zero => simp
      | succ m => simpa using ih n m (by omega)

theorem alookup_aset_self {κ β : Type} [DecidableEq κ] (l : List (κ × β)) (k : κ) (v w : β)
    (h : alookup l k = some w) : alookup (aset l k v) k = some v := by
  induction l with
  | nil => simp [alookup] at h
  | cons p l ih =>
    obtain ⟨k1, v1⟩ := p
    by_cases hk : k = k1
    · simp [alookup, aset, hk]
    · simp only [alookup, aset, if_neg hk] at h ⊢
      exact ih h

theorem alookup_aset_ne {κ β : Type} [DecidableEq κ] (l : List (κ × β)) (k k' : κ) (v : β)
    (h : k' ≠ k) : alookup (aset l k v) k' = alookup l k' := by
  induction l with
  | nil => simp [alookup, aset]
  | cons p l ih =>
    obtain ⟨k1, v1⟩ := p
    by_cases hk : k = k1
    · subst hk
      simp [alookup, aset, if_neg h]
    · simp only [aset, if_neg hk]
      by_cases hk' : k' = k1
      · simp [alookup, hk']
      · simp only [alookup, if_neg hk']
        exact ih

theorem alookup_append_some {κ β : Type} [DecidableEq κ] (l l2 : List (κ × β)) (k : κ) (v : β)
    (h : alookup l k = some v) : alookup (l ++ l2) k = some v := by
  induction l with
  | nil => simp [alookup] at h
  | cons p l ih =>
    obtain ⟨k1, v1⟩ := p
    by_cases hk : k = k1
    · simpa [alookup, hk] using h
    · simp only [List.cons_append, alookup, if_neg hk] at h ⊢
      exact ih h

theorem alookup_append_none {κ β : Type} [DecidableEq κ] (l l2 : List (κ × β)) (k : κ)
    (h : alookup l k = none) : alookup (l ++ l2) k = alookup l2 k := by
  induction l with
  | nil => simp
  | cons p l ih =>
    obtain ⟨k1, v1⟩ := p
    by_cases hk : k = k1
    · simp [alookup, hk] at h
    · simp only [alookup, if_neg hk] at h
      simp only [List.cons_append, alookup, if_neg hk]
      exact ih h

theorem alookup_append_cases {κ β : Type} [DecidableEq κ] (l l2 : List (κ × β)) (k : κ) (v : β)
    (h : alookup (l ++ l2) k = some v) :
    alookup l k = some v ∨ (alookup l k = none ∧ alookup l2 k = some v) := by
  cases hl : alookup l k with
  | none => exact Or.inr ⟨rfl, by rwa [alookup_append_none l l2 k hl] at h⟩
  | some w =>
    left
    rw [alookup_append_some l l2 k w hl] at h
    exact h

theorem alookup_aset_isSome {κ β : Type} [DecidableEq κ] (l : List (κ × β)) (k k' : κ) (v : β)
    (hk : (alookup l k).isSome) (h : (alookup l k').isSome) :
    (alookup (aset l k v) k').isSome := by
  by_cases he : k' = k
  · subst he
    obtain ⟨w, hw⟩ := Option.isSome_iff_exists.mp hk
    rw [alookup_aset_self l k' v w hw]
    rfl
  · rwa [alookup_aset_ne l k k' v he]

theorem goodFrame_idx {P : Provider} {f : FrameState} (hw : P.wellSized)
    (hg : goodFrame P f) (hc : goodCur P f) :
    f.currentIdx = f.current_line - f.starting_line - 1 ∧ f.currentIdx < f.lines.length := by
  obtain ⟨hst, hlen⟩ := hg
  obtain ⟨h1, h2⟩ := hc
  have hwc := hw f.function_key
  have hcur_lt : f.current_line < wordMod := by omega
  have heq : f.currentIdx = f.current_line - f.starting_line - 1 := stIdx_eq _ _ h1 hcur_lt
  refine ⟨heq, ?_⟩
  rw [heq, hlen]
  have hdl : (getLinesList P f.function_key).length = (P.src f.function_key).length - 1 := by
    simp [getLinesList]
  omega

theorem addInternalCurrent_ok {P : Provider} {f : FrameState} (hw : P.wellSized)
    (hg : goodFrame P f) (hc : goodCur P f) (t : Nat) :
    ∃ f', f.addInternalCurrent t = .ok f' ∧
      f'.function_key = f.function_key ∧ f'.starting_line = f.starting_line ∧
      f'.current_line = f.current_line ∧ f'.internal = f.internal ∧
      f'.lines.length = f.lines.length := by
  obtain ⟨-, hlt⟩ := goodFrame_idx hw hg hc
  cases hget : f.lines.get? f.currentIdx with
  | none =>
    rw [List.get?_eq_none] at hget
    omega
  | some ls =>
    refine ⟨{ f with lines := f.lines.set f.currentIdx { ls with internal := ls.internal + t } },
      ?_, rfl, rfl, rfl, rfl, ?_⟩
    · unfold FrameState.addInternalCurrent
      rw [hget]
    · simp

theorem addExternalCurrent_ok {P : Provider} {f : FrameState} (hw : P.wellSized)
    (hg : goodFrame P f) (hc : goodCur P f) (t : Nat) :
    ∃ f', f.addExternalCurrent t = .ok f' ∧
      f'.function_key = f.function_key ∧ f'.starting_line = f.starting_line ∧
      f'.current_line = f.current_line ∧ f'.internal = f.internal ∧
      f'.lines.length = f.lines.length := by
  obtain ⟨-, hlt⟩ := goodFrame_idx hw hg hc
  cases hget : f.lines.get? f.currentIdx with
  | none =>
    rw [List.get?_eq_none] at hget
    omega
  | some ls =>
    refine ⟨{ f with lines := f.lines.set f.currentIdx { ls with external := ls.external + t } },
      ?_, rfl, rfl, rfl, rfl, ?_⟩
    · unfold FrameState.addExternalCurrent
      rw [hget]
    · simp

theorem fold_lines_ok (ls : List LineState) (fn : FunctionRec)
    (h : ls = [] ∨ (0 < fn.line_time.length ∧ 0 < fn.line_time_internal.length)) :
    ∃ fn', (ls.foldlM foldStep fn : Except String FunctionRec) = .ok fn' ∧
      fn'.name = fn.name ∧ fn'.lines = fn.lines ∧
      fn'.internal_time = fn.internal_time ∧
      fn'.line_time.length = fn.line_time.length ∧
      fn'.line_time_internal.length = fn.line_time_internal.length := by
  induction ls generalizing fn with
  | nil => exact ⟨fn, rfl, rfl, rfl, rfl, rfl, rfl⟩
  | cons l ls ih =>
    rcases h with h | ⟨h1, h2⟩
    · simp at h
    · cases hget1 : fn.line_time.get? 0 with
      | none =>
        rw [List.get?_eq_none] at hget1
        omega
      | some v1 =>
        cases hget2 : fn.line_time_internal.get? 0 with
        | none =>
          rw [List.get?_eq_none] at hget2
          omega
        | some v2 =>
          have hstep : foldStep fn l = .ok
              { fn with line_time := fn.line_time.set 0 (v1 + l.external),
                        line_time_internal := fn.line_time_internal.set 0 (v2 + l.internal) } := by
            have e1 : fn.add_elapsed 0 l.external =
                .ok { fn with line_time := fn.line_time.set 0 (v1 + l.external) } := by
              unfold FunctionRec.add_elapsed
              rw [hget1]
            have e2 : FunctionRec.add_elapsed_internal
                { fn with line_time := fn.line_time.set 0 (v1 + l.external) } 0 l.internal =
                .ok { fn with line_time := fn.line_time.set 0 (v1 + l.external),
                              line_time_internal := fn.line_time_internal.set 0 (v2 + l.internal) } := by
              unfold FunctionRec.add_elapsed_internal
              simp only []
              rw [show ({ fn with line_time := fn.line_time.set 0 (v1 + l.external)} : FunctionRec).line_time_internal = fn.line_time_internal from rfl, hget2]
            rw [foldStep, e1]
            exact e2
          have hcons : ((l :: ls).foldlM foldStep fn : Except String FunctionRec) =
              ls.foldlM foldStep
                { fn with line_time := fn.line_time.set 0 (v1 + l.external),
                          line_time_internal := fn.line_time_internal.set 0 (v2 + l.internal) } := by
            rw [List.foldlM_cons, hstep]
            rfl
          have hrec := ih
            { fn with line_time := fn.line_time.set 0 (v1 + l.external),
                      line_time_internal := fn.line_time_internal.set 0 (v2 + l.internal) }
            (by
              right
              refine ⟨?_, ?_⟩
              · simpa using h1
              · simpa using h2)
          obtain ⟨fn', hfold, hname, hlines, hint, hlt, hlti⟩ := hrec
          refine ⟨fn', ?_, ?_, ?_, ?_, ?_, ?_⟩
          · rw [hcons]
            exact hfold
          · exact hname
          · exact hlines
          · exact hint
          · simpa using hlt
          · simpa using hlti

theorem goodFrame_of_eq {P : Provider} {f f' : FrameState} (h : goodFrame P f)
    (hk : f'.function_key = f.function_key) (hs : f'.starting_line = f.starting_line)
    (hl : f'.lines.length = f.lines.length) : goodFrame P f' := by
  obtain ⟨a, b⟩ := h
  constructor
  · rw [hs, hk]
    exact a
  · rw [hl, hk]
    exact b

theorem goodCur_of_eq {P : Provider} {f f' : FrameState} (h : goodCur P f)
    (hk : f'.function_key = f.function_key) (hs : f'.starting_line = f.starting_line)
    (hc : f'.current_line = f.current_line) : goodCur P f' := by
  obtain ⟨a, b⟩ := h
  constructor
  · rw [hs, hc]
    exact a
  · rw [hc, hs, hk]
    exact b

theorem goodFun_total {P : Provider} {c : Nat} {fn : FunctionRec} (h : goodFun P c fn)
    (t : Nat) : goodFun P c (fn.add_elapsed_internal_total t) := h

theorem funs_good_aset {P : Provider} (l : List (Nat × FunctionRec)) (c : Nat)
    (fn v : FunctionRec) (hfn : alookup l c = some fn)
    (hgood : ∀ c' fn', alookup l c' = some fn' → goodFun P c' fn')
    (hv : goodFun P c v) :
    ∀ c' fn', alookup (aset l c v) c' = some fn' → goodFun P c' fn' := by
  intro c' fn' h
  by_cases he : c' = c
  · subst he
    rw [alookup_aset_self l c' v fn hfn] at h
    cases h
    exact hv
  · rw [alookup_aset_ne l c c' v he] at h
    exact hgood c' fn' h

/-- Invariant of engine states reachable under well-formed traces,
relative to the ghost stack `g` and pending first-line obligation `ml`
of `wfAux`.  The engine stack lags the ghost stack by exactly the one
deferred pop when the previous event was a return. -/
structure EngInv (P : Provider) (g : List Nat) (ml : Option Nat) (s : ModuleState) : Prop where
  keys_ret : s.last_instruction = .kReturn →
    ∃ fr rest, s.frame_stack = fr :: rest ∧ rest.map FrameState.function_key = g
  keys_nr : s.last_instruction ≠ .kReturn → s.frame_stack.map FrameState.function_key = g
  frames_good : ∀ f ∈ s.frame_stack, goodFrame P f
  frames_reg : ∀ f ∈ s.frame_stack, (alookup s.functions f.function_key).isSome
  funs_good : ∀ c fn, alookup s.functions c = some fn → goodFun P c fn
  cur_tail : ∀ f ∈ s.frame_stack.tail, goodCur P f
  cur_head : ∀ f fs, s.frame_stack = f :: fs → s.last_instruction ≠ .kCall → goodCur P f
  ml_some : ∀ c, ml = some c → s.last_instruction = .kCall ∧
    ∃ f fs, s.frame_stack = f :: fs ∧ f.function_key = c
  ml_none : ml = none → s.last_instruction ≠ .kCall
  cc_reg : s.last_instruction = .kCCall → (alookup s.c_functions s.last_c_name).isSome
  cc_ne : s.last_instruction = .kCCall → s.frame_stack ≠ []
  cr_ne : s.last_instruction = .kCReturn → s.frame_stack ≠ []

/-- State shape between the finish phase and the begin phase of one
dispatch: the deferred pop (if any) has been resolved, so the engine
stack matches the ghost stack exactly. -/
structure MidInv (P : Provider) (g : List Nat) (s1 : ModuleState) : Prop where
  keys : s1.frame_stack.map FrameState.function_key = g
  frames_good : ∀ f ∈ s1.frame_stack, goodFrame P f
  frames_reg : ∀ f ∈ s1.frame_stack, (alookup s1.functions f.function_key).isSome
  funs_good : ∀ c fn, alookup s1.functions c = some fn → goodFun P c fn
  cur_tail : ∀ f ∈ s1.frame_stack.tail, goodCur P f
  cur_head : ∀ f fs, s1.frame_stack = f :: fs → s1.last_instruction ≠ .kCall → goodCur P f

@[simp]
theorem exbind_ok {α β : Type} (x : α) (k : α → Except String β) :
    (Except.ok x >>= k) = k x := rfl

theorem midinv_of_inv {P : Provider} {g : List Nat} {ml : Option Nat} {s : ModuleState}
    (hInv : EngInv P g ml s) (hnr : s.last_instruction ≠ .kReturn) : MidInv P g s :=
  ⟨hInv.keys_nr hnr, hInv.frames_good, hInv.frames_reg, hInv.funs_good,
   hInv.cur_tail, hInv.cur_head⟩

theorem midinv_head {P : Provider} {g : List Nat} {ml : Option Nat} {s s' : ModuleState}
    (hInv : EngInv P g ml s) (f f' : FrameState) (fs : List FrameState)
    (hst : s.frame_stack = f :: fs) (hnr : s.last_instruction ≠ .kReturn)
    (hst' : s'.frame_stack = f' :: fs) (hfun : s'.functions = s.functions)
    (hlast : s'.last_instruction = s.last_instruction)
    (hk : f'.function_key = f.function_key)
    (hgf : goodFrame P f') (hcur : goodCur P f') :
    MidInv P g s' := by
  have hmem : f ∈ s.frame_stack := by
    rw [hst]
    exact List.mem_cons_self f fs
  constructor
  · rw [hst', List.map_cons, hk]
    have := hInv.keys_nr hnr
    rw [hst, List.map_cons] at this
    exact this
  · intro x hx
    rw [hst'] at hx
    rcases List.mem_cons.mp hx with h | h
    · rw [h]
      exact hgf
    · exact hInv.frames_good x (by rw [hst]; exact List.mem_cons_of_mem f h)
  · intro x hx
    rw [hst'] at hx
    rw [hfun]
    rcases List.mem_cons.mp hx with h | h
    · rw [h, hk]
      exact hInv.frames_reg f hmem
    · exact hInv.frames_reg x (by rw [hst]; exact List.mem_cons_of_mem f h)
  · intro c fn hfn
    rw [hfun] at hfn
    exact hInv.funs_good c fn hfn
  · intro x hx
    rw [hst'] at hx
    exact hInv.cur_tail x (by rw [hst]; exact hx)
  · intro x xs hx _
    rw [hst'] at hx
    cases hx
    exact hcur

theorem midinv_aset {P : Provider} {g : List Nat} {ml : Option Nat} {s : ModuleState}
    (hInv : EngInv P g ml s) (c : Nat) (fn v : FunctionRec)
    (hnr : s.last_instruction ≠ .kReturn)
    (hfn : alookup s.functions c = some fn) (hv : goodFun P c v) :
    MidInv P g { s with functions := aset s.functions c v } := by
  constructor
  · exact hInv.keys_nr hnr
  · exact hInv.frames_good
  · intro x hx
    exact alookup_aset_isSome _ c _ v (by rw [hfn]; rfl) (hInv.frames_reg x hx)
  · exact funs_good_aset s.functions c fn v hfn hInv.funs_good hv
  · exact hInv.cur_tail
  · exact hInv.cur_head

@[simp]
theorem add_internal_function_key (f : FrameState) (t : Nat) :
    (f.add_internal t).function_key = f.function_key := rfl

@[simp]
theorem add_internal_starting_line (f : FrameState) (t : Nat) :
    (f.add_internal t).starting_line = f.starting_line := rfl

@[simp]
theorem add_internal_current_line (f : FrameState) (t : Nat) :
    (f.add_internal t).current_line = f.current_line := rfl

@[simp]
theorem add_internal_lines (f : FrameState) (t : Nat) :
    (f.add_internal t).lines = f.lines := rfl

@[simp]
theorem add_internal_internal (f : FrameState) (t : Nat) :
    (f.add_internal t).internal = f.internal + t := rfl

@[simp]
theorem add_internal_total_time (f : FrameState) (t : Nat) :
    (f.add_internal t).total_time = f.total_time := rfl

@[simp]
theorem total_line_time (fn : FunctionRec) (t : Nat) :
    (fn.add_elapsed_internal_total t).line_time = fn.line_time := rfl

@[simp]
theorem total_line_time_internal (fn : FunctionRec) (t : Nat) :
    (fn.add_elapsed_internal_total t).line_time_internal = fn.line_time_internal := rfl

@[simp]
theorem total_lines (fn : FunctionRec) (t : Nat) :
    (fn.add_elapsed_internal_total t).lines = fn.lines := rfl

@[simp]
theorem total_name (fn : FunctionRec) (t : Nat) :
    (fn.add_elapsed_internal_total t).name = fn.name := rfl

@[simp]
theorem total_internal_time (fn : FunctionRec) (t : Nat) :
    (fn.add_elapsed_internal_total t).internal_time = fn.internal_time + t := rfl

theorem finishStep_ok {P : Provider} {g : List Nat} {ml : Option Nat} {s : ModuleState}
    (e : Event) (t : Nat) (hw : P.wellSized) (hInv : EngInv P g ml s)
    (hml : ∀ c, ml = some c → ∃ ln, e = Event.line c ln) :
    ∃ s1, finishStep s e t = .ok s1 ∧ MidInv P g s1 ∧
      s1.last_instruction = s.last_instruction := by
  cases hl : s.last_instruction with
  | kOrigin =>
    exact ⟨s, by simp [finishStep, hl], midinv_of_inv hInv (by simp [hl]), hl⟩
  | kException =>
    exact ⟨s, by simp [finishStep, hl], midinv_of_inv hInv (by simp [hl]), hl⟩
  | kCException =>
    exact ⟨s, by simp [finishStep, hl], midinv_of_inv hInv (by simp [hl]), hl⟩
  | kInvalid =>
    exact ⟨s, by simp [finishStep, hl], midinv_of_inv hInv (by simp [hl]), hl⟩
  | kLine =>
    cases hst : s.frame_stack with
    | nil =>
      refine ⟨s, ?_, midinv_of_inv hInv (by simp [hl]), hl⟩
      simp [finishStep, hl, finish_line, hst]
    | cons f fs =>
      have hgf : goodFrame P f := hInv.frames_good f (by rw [hst]; exact List.mem_cons_self f fs)
      have hgc : goodCur P f := hInv.cur_head f fs hst (by simp [hl])
      obtain ⟨f', hok, hk, hs', hc, hi, hlen⟩ := addInternalCurrent_ok hw hgf hgc t
      refine ⟨{ s with frame_stack := f' :: fs }, ?_, ?_, hl⟩
      · simp [finishStep, hl, finish_line, hst, hok]
      · exact midinv_head hInv f f' fs hst (by simp [hl]) rfl rfl rfl hk
          (goodFrame_of_eq hgf hk hs' hlen) (goodCur_of_eq hgc hk hs' hc)
  | kCall =>
    cases hmlc : ml with
    | none => exact absurd hl (hInv.ml_none hmlc)
    | some c =>
      obtain ⟨ln, he⟩ := hml c hmlc
      obtain ⟨-, f, fs, hst, hkey⟩ := hInv.ml_some c hmlc
      have hreg := hInv.frames_reg f (by rw [hst]; exact List.mem_cons_self f fs)
      obtain ⟨fn, hfn⟩ := Option.isSome_iff_exists.mp hreg
      rw [hkey] at hfn
      refine ⟨{ s with functions := aset s.functions c (fn.add_elapsed_internal_total t) }, ?_, ?_, hl⟩
      · subst he
        simp [finishStep, hl, finish_call, Event.code, hfn]
      · exact midinv_aset hInv c fn _ (by simp [hl]) hfn
          (goodFun_total (hInv.funs_good c fn hfn) t)
  | kCCall =>
    obtain ⟨bf, hbf⟩ := Option.isSome_iff_exists.mp (hInv.cc_reg hl)
    have hne := hInv.cc_ne hl
    cases hst : s.frame_stack with
    | nil => exact absurd hst hne
    | cons f fs =>
      have hgf : goodFrame P f := hInv.frames_good f (by rw [hst]; exact List.mem_cons_self f fs)
      have hgc : goodCur P f := hInv.cur_head f fs hst (by simp [hl])
      obtain ⟨f', hok, hk, hs', hc, hi, hlen⟩ := addExternalCurrent_ok hw hgf hgc t
      refine ⟨{ s with c_functions := aset s.c_functions s.last_c_name (bf.add_elapsed_internal t),
                       frame_stack := f' :: fs }, ?_, ?_, hl⟩
      · simp [finishStep, hl, finish_ccall, hbf, hst, hok]
      · exact midinv_head hInv f f' fs hst (by simp [hl]) rfl rfl rfl hk
          (goodFrame_of_eq hgf hk hs' hlen) (goodCur_of_eq hgc hk hs' hc)
  | kCReturn =>
    have hne := hInv.cr_ne hl
    cases hst : s.frame_stack with
    | nil => exact absurd hst hne
    | cons f fs =>
      have hgf : goodFrame P f := hInv.frames_good f (by rw [hst]; exact List.mem_cons_self f fs)
      have hgc : goodCur P f := hInv.cur_head f fs hst (by simp [hl])
      refine ⟨{ s with frame_stack := f.add_internal t :: fs }, ?_, ?_, hl⟩
      · simp [finishStep, hl, finish_creturn, hst]
      · exact midinv_head hInv f (f.add_internal t) fs hst (by simp [hl]) rfl rfl rfl rfl
          (goodFrame_of_eq hgf rfl rfl rfl) (goodCur_of_eq hgc rfl rfl rfl)
  | kReturn =>
    obtain ⟨fr, rest, hst, hkeys⟩ := hInv.keys_ret hl
    have hmemfr : fr ∈ s.frame_stack := by rw [hst]; exact List.mem_cons_self fr rest
    have hgfr := hInv.frames_good fr hmemfr
    obtain ⟨fn0, hfn0⟩ := Option.isSome_iff_exists.mp (hInv.frames_reg fr hmemfr)
    have hgfn0 := hInv.funs_good _ _ hfn0
    have hlen0 : fn0.line_time.length = fr.lines.length := by
      obtain ⟨h1, h2, h3⟩ := hgfn0
      obtain ⟨-, hg2⟩ := hgfr
      rw [h2, h1, hg2]
    have hlen0i : fn0.line_time_internal.length = fr.lines.length := by
      obtain ⟨h1, h2, h3⟩ := hgfn0
      obtain ⟨-, hg2⟩ := hgfr
      rw [h3, h1, hg2]
    have hdisj : fr.lines = [] ∨
        (0 < (fn0.add_elapsed_internal_total (fr.internal + t)).line_time.length ∧
         0 < (fn0.add_elapsed_internal_total (fr.internal + t)).line_time_internal.length) := by
      cases hfl : fr.lines with
      | nil => exact Or.inl rfl
      | cons a as =>
        right
        constructor
        · rw [total_line_time, hlen0, hfl]
          simp
        · rw [total_line_time_internal, hlen0i, hfl]
          simp
    obtain ⟨fn2, hfold, hname2, hlines2, hint2, hlt2, hlti2⟩ :=
      fold_lines_ok fr.lines (fn0.add_elapsed_internal_total (fr.internal + t)) hdisj
    have hgfn2 : goodFun P fr.function_key fn2 := by
      obtain ⟨h1, h2, h3⟩ := hgfn0
      refine ⟨?_, ?_, ?_⟩
      · rw [hlines2, total_lines, h1]
      · rw [hlt2, hlines2, total_line_time, total_lines, h2]
      · rw [hlti2, hlines2, total_line_time_internal, total_lines, h3]
    cases hrest : rest with
    | nil =>
      refine ⟨{ s with functions := aset s.functions fr.function_key fn2,
                       frame_stack := [] }, ?_, ?_, hl⟩
      · subst hrest
        simp [finishStep, hl, finish_return, hst, pop_frame, hfn0, hfold]
      · constructor
        · rw [hkeys.symm, hrest]
        · intro x hx
          simp at hx
        · intro x hx
          simp at hx
        · exact funs_good_aset s.functions fr.function_key fn0 fn2 hfn0 hInv.funs_good hgfn2
        · intro x hx
          simp at hx
        · intro x xs hx
          simp at hx
    | cons top rest' =>
      have hmemtop : top ∈ s.frame_stack.tail := by
        rw [hst, hrest]
        exact List.mem_cons_self top rest'
      have hgtop : goodFrame P top := hInv.frames_good top (by
        rw [hst, hrest]
        exact List.mem_cons_of_mem fr (List.mem_cons_self top rest'))
      have hgctop : goodCur P top := hInv.cur_tail top hmemtop
      obtain ⟨top', htok, htk, hts, htc, hti, htlen⟩ :=
        addExternalCurrent_ok hw hgtop hgctop fr.total_time
      refine ⟨{ s with functions := aset s.functions fr.function_key fn2,
                       frame_stack := top' :: rest' }, ?_, ?_, hl⟩
      · subst hrest
        simp [finishStep, hl, finish_return, hst, pop_frame, hfn0, hfold, htok]
      · constructor
        · have : (top :: rest').map FrameState.function_key = g := by
            rw [hrest] at hkeys
            exact hkeys
          show (top' :: rest').map FrameState.function_key = g
          rw [List.map_cons, htk]
          rw [List.map_cons] at this
          exact this
        · intro x hx
          rcases List.mem_cons.mp hx with h | h
          · rw [h]
            exact goodFrame_of_eq hgtop htk hts htlen
          · exact hInv.frames_good x (by
              rw [hst, hrest]
              exact List.mem_cons_of_mem fr (List.mem_cons_of_mem top h))
        · intro x hx
          have hsome : (alookup s.functions fr.function_key).isSome := by
            rw [hfn0]
            rfl
          rcases List.mem_cons.mp hx with h | h
          · refine alookup_aset_isSome _ _ _ _ hsome ?_
            rw [h, htk]
            exact hInv.frames_reg top (by
              rw [hst, hrest]
              exact List.mem_cons_of_mem fr (List.mem_cons_self top rest'))
          · refine alookup_aset_isSome _ _ _ _ hsome ?_
            exact hInv.frames_reg x (by
              rw [hst, hrest]
              exact List.mem_cons_of_mem fr (List.mem_cons_of_mem top h))
        · exact funs_good_aset s.functions fr.function_key fn0 fn2 hfn0 hInv.funs_good hgfn2
        · intro x hx
          refine hInv.cur_tail x ?_
          rw [hst, hrest]
          exact List.mem_cons_of_mem top hx
        · intro x xs hx _
          have hxeq : x = top' := by
            have : (⟨top' :: rest', rfl⟩ : { l : List FrameState // l = top' :: rest' }).1 = x :: xs := hx
            cases hx
            rfl
          rw [hxeq]
          exact goodCur_of_eq hgctop htk hts htc

theorem add_function_frame_stack (P : Provider) (s : ModuleState) (c : Nat) :
    (add_function P s c).frame_stack = s.frame_stack := by
  unfold add_function
  split <;> rfl

theorem add_function_c_functions (P : Provider) (s : ModuleState) (c : Nat) :
    (add_function P s c).c_functions = s.c_functions := by
  unfold add_function
  split <;> rfl

theorem add_function_mono (P : Provider) (s : ModuleState) (c k : Nat)
    (h : (alookup s.functions k).isSome) :
    (alookup (add_function P s c).functions k).isSome := by
  unfold add_function
  split
  · exact h
  · obtain ⟨v, hv⟩ := Option.isSome_iff_exists.mp h
    show (alookup (s.functions ++ _) k).isSome
    rw [alookup_append_some _ _ k v hv]
    rfl

theorem add_function_registers (P : Provider) (s : ModuleState) (c : Nat) :
    (alookup (add_function P s c).functions c).isSome := by
  unfold add_function
  split
  · assumption
  · next h =>
    have hn : alookup s.functions c = none := by
      cases hx : alookup s.functions c with
      | none => rfl
      | some v =>
        rw [hx] at h
        simp at h
    show (alookup (s.functions ++ _) c).isSome
    rw [alookup_append_none _ _ c hn]
    simp [alookup]

theorem add_function_good (P : Provider) (s : ModuleState) (c : Nat)
    (hgood : ∀ k fn, alookup s.functions k = some fn → goodFun P k fn) :
    ∀ k fn, alookup (add_function P s c).functions k = some fn → goodFun P k fn := by
  unfold add_function
  split
  · exact hgood
  · intro k fn h
    rcases alookup_append_cases _ _ k fn h with h' | ⟨-, h'⟩
    · exact hgood k fn h'
    · by_cases hk : k = c
      · subst hk
        simp [alookup] at h'
        subst h'
        refine ⟨rfl, ?_, ?_⟩ <;> simp
      · simp [alookup, hk] at h'

theorem add_c_function_frame_stack (s : ModuleState) (name : String) :
    (add_c_function s name).frame_stack = s.frame_stack := by
  unfold add_c_function
  split <;> rfl

theorem add_c_function_functions (s : ModuleState) (name : String) :
    (add_c_function s name).functions = s.functions := by
  unfold add_c_function
  split <;> rfl

theorem add_c_function_name (s : ModuleState) (name : String) :
    (add_c_function s name).last_c_name = s.last_c_name := by
  unfold add_c_function
  split <;> rfl

theorem add_c_function_last (s : ModuleState) (name : String) :
    (add_c_function s name).last_instruction = s.last_instruction := by
  unfold add_c_function
  split <;> rfl

theorem add_c_function_registers (s : ModuleState) (name : String) :
    (alookup (add_c_function s name).c_functions name).isSome := by
  unfold add_c_function
  split
  · assumption
  · next h =>
    have hn : alookup s.c_functions name = none := by
      cases hx : alookup s.c_functions name with
      | none => rfl
      | some v =>
        rw [hx] at h
        simp at h
    show (alookup (s.c_functions ++ _) name).isSome
    rw [alookup_append_none _ _ name hn]
    simp [alookup]

theorem begin_line_inv {P : Provider} {g : List Nat} {s1 : ModuleState}
    (hMid : MidInv P g s1) (ln : Nat)
    (hln : ∀ f fs, s1.frame_stack = f :: fs →
      P.firstLine f.function_key + 1 ≤ ln ∧
      ln < P.firstLine f.function_key + (P.src f.function_key).length) :
    EngInv P g none (profile_line s1 ln) := by
  cases hst : s1.frame_stack with
  | nil =>
    have hres : profile_line s1 ln = { s1 with last_instruction := .kLine } := by
      simp [profile_line, hst]
    rw [hres]
    constructor
    · intro h
      exact Instruction.noConfusion h
    · intro _
      exact hMid.keys
    · exact hMid.frames_good
    · exact hMid.frames_reg
    · exact hMid.funs_good
    · exact hMid.cur_tail
    · intro f fs hx _
      have hx' : s1.frame_stack = f :: fs := hx
      rw [hst] at hx'
      exact List.noConfusion hx'
    · intro c h
      exact Option.noConfusion h
    · intro _ h
      exact Instruction.noConfusion h
    · intro h
      exact Instruction.noConfusion h
    · intro h
      exact Instruction.noConfusion h
    · intro h
      exact Instruction.noConfusion h
  | cons f fs =>
    have hgf : goodFrame P f := hMid.frames_good f (by rw [hst]; exact List.mem_cons_self f fs)
    have hres : profile_line s1 ln =
        { s1 with last_instruction := .kLine,
                  frame_stack := { f with current_line := ln } :: fs } := by
      simp [profile_line, hst]
    rw [hres]
    constructor
    · intro h
      exact Instruction.noConfusion h
    · intro _
      have h := hMid.keys
      rw [hst] at h
      simpa using h
    · intro x hx
      rcases List.mem_cons.mp hx with h | h
      · rw [h]
        exact goodFrame_of_eq hgf rfl rfl rfl
      · exact hMid.frames_good x (by rw [hst]; exact List.mem_cons_of_mem f h)
    · intro x hx
      rcases List.mem_cons.mp hx with h | h
      · rw [h]
        exact hMid.frames_reg f (by rw [hst]; exact List.mem_cons_self f fs)
      · exact hMid.frames_reg x (by rw [hst]; exact List.mem_cons_of_mem f h)
    · exact hMid.funs_good
    · intro x hx
      exact hMid.cur_tail x (by rw [hst]; exact hx)
    · intro x xs hx _
      injection hx with h1 h2
      subst h1
      obtain ⟨hb1, hb2⟩ := hln f fs hst
      obtain ⟨hgf1, -⟩ := hgf
      constructor
      · show f.starting_line + 1 ≤ ln
        rw [hgf1]
        exact hb1
      · show ln < f.starting_line + (P.src f.function_key).length
        rw [hgf1]
        exact hb2
    · intro c h
      exact Option.noConfusion h
    · intro _ h
      exact Instruction.noConfusion h
    · intro h
      exact Instruction.noConfusion h
    · intro h
      exact Instruction.noConfusion h
    · intro h
      exact Instruction.noConfusion h

theorem begin_call_inv {P : Provider} {g : List Nat} {s1 : ModuleState}
    (hMid : MidInv P g s1) (c : Nat) (hnc : s1.last_instruction ≠ .kCall) :
    EngInv P (c :: g) (some c) (profile_call P s1 c) := by
  have hres : profile_call P s1 c =
      { add_function P s1 c with
        frame_stack :=
          { starting_line := P.firstLine c
            current_line := 0
            function_key := c
            lines := List.replicate (getLinesList P c).length {}
            internal := 0 } :: s1.frame_stack
        last_instruction := .kCall } := by
    simp [profile_call, emplace_frame, add_function_frame_stack]
  rw [hres]
  constructor
  · intro h
    exact Instruction.noConfusion h
  · intro _
    simpa using hMid.keys
  · intro x hx
    rcases List.mem_cons.mp hx with h | h
    · rw [h]
      constructor
      · rfl
      · simp
    · exact hMid.frames_good x h
  · intro x hx
    rcases List.mem_cons.mp hx with h | h
    · rw [h]
      exact add_function_registers P s1 c
    · exact add_function_mono P s1 c _ (hMid.frames_reg x h)
  · exact add_function_good P s1 c hMid.funs_good
  · intro x hx
    cases hst : s1.frame_stack with
    | nil =>
      rw [hst] at hx
      simp at hx
    | cons f0 fs0 =>
      rw [hst] at hx
      rcases List.mem_cons.mp hx with h | h
      · rw [h]
        exact hMid.cur_head f0 fs0 hst hnc
      · exact hMid.cur_tail x (by rw [hst]; exact h)
  · intro x xs hx hne
    exact absurd rfl hne
  · intro c' h
    injection h with h'
    subst h'
    exact ⟨rfl, _, s1.frame_stack, rfl, rfl⟩
  · intro h
    exact Option.noConfusion h
  · intro h
    exact Instruction.noConfusion h
  · intro h
    exact Instruction.noConfusion h
  · intro h
    exact Instruction.noConfusion h

theorem begin_ret_inv {P : Provider} {g' : List Nat} {s1 : ModuleState} (c : Nat)
    (hMid : MidInv P (c :: g') s1) (hnc : s1.last_instruction ≠ .kCall) :
    EngInv P g' none (profile_return s1) := by
  obtain ⟨fr, rest, hst⟩ : ∃ fr rest, s1.frame_stack = fr :: rest := by
    cases hst : s1.frame_stack with
    | nil =>
      have h := hMid.keys
      rw [hst] at h
      exact List.noConfusion h
    | cons fr rest => exact ⟨fr, rest, rfl⟩
  have hkeys := hMid.keys
  rw [hst] at hkeys
  injection hkeys with h1 h2
  constructor
  · intro _
    exact ⟨fr, rest, hst, h2⟩
  · intro h'
    exact absurd rfl h'
  · exact hMid.frames_good
  · exact hMid.frames_reg
  · exact hMid.funs_good
  · exact hMid.cur_tail
  · intro x xs hx _
    exact hMid.cur_head x xs hx hnc
  · intro c' h'
    exact Option.noConfusion h'
  · intro _ h'
    exact Instruction.noConfusion h'
  · intro h'
    exact Instruction.noConfusion h'
  · intro h'
    exact Instruction.noConfusion h'
  · intro h'
    exact Instruction.noConfusion h'

theorem begin_ccall_inv {P : Provider} {g : List Nat} {s1 : ModuleState}
    (hMid : MidInv P g s1) (target : CTarget) (hg : g ≠ [])
    (hnc : s1.last_instruction ≠ .kCall) :
    EngInv P g none (profile_c_call s1 target) := by
  have hstack : (profile_c_call s1 target).frame_stack = s1.frame_stack := by
    simp [profile_c_call, add_c_function_frame_stack]
  have hfuns : (profile_c_call s1 target).functions = s1.functions := by
    simp [profile_c_call, add_c_function_functions]
  have hlast : (profile_c_call s1 target).last_instruction = .kCCall := by
    simp [profile_c_call]
  have hcn : (profile_c_call s1 target).last_c_name = target.pstr := by
    simp [profile_c_call, add_c_function_name]
  have hcreg : (alookup (profile_c_call s1 target).c_functions target.pstr).isSome := by
    simp only [profile_c_call]
    exact add_c_function_registers _ target.pstr
  constructor
  · intro h
    rw [hlast] at h
    exact Instruction.noConfusion h
  · intro _
    rw [hstack]
    exact hMid.keys
  · intro x hx
    rw [hstack] at hx
    exact hMid.frames_good x hx
  · intro x hx
    rw [hstack] at hx
    rw [hfuns]
    exact hMid.frames_reg x hx
  · intro k fn hfn
    rw [hfuns] at hfn
    exact hMid.funs_good k fn hfn
  · intro x hx
    rw [hstack] at hx
    exact hMid.cur_tail x hx
  · intro x xs hx _
    rw [hstack] at hx
    exact hMid.cur_head x xs hx hnc
  · intro c' h'
    exact Option.noConfusion h'
  · intro _ h'
    rw [hlast] at h'
    exact Instruction.noConfusion h'
  · intro _
    rw [hcn]
    exact hcreg
  · intro _
    rw [hstack]
    intro hnil
    have h := hMid.keys
    rw [hnil] at h
    simp at h
    exact hg h
  · intro h'
    rw [hlast] at h'
    exact Instruction.noConfusion h'

theorem begin_cret_inv {P : Provider} {g : List Nat} {s1 : ModuleState}
    (hMid : MidInv P g s1) (hg : g ≠ []) (hnc : s1.last_instruction ≠ .kCall) :
    EngInv P g none (profile_c_return s1) := by
  have hres : profile_c_return s1 = { s1 with last_instruction := .kCReturn } := rfl
  rw [hres]
  constructor
  · intro h
    exact Instruction.noConfusion h
  · intro _
    exact hMid.keys
  · exact hMid.frames_good
  · exact hMid.frames_reg
  · exact hMid.funs_good
  · exact hMid.cur_tail
  · intro x xs hx _
    exact hMid.cur_head x xs hx hnc
  · intro c' h'
    exact Option.noConfusion h'
  · intro _ h'
    exact Instruction.noConfusion h'
  · intro h'
    exact Instruction.noConfusion h'
  · intro h'
    exact Instruction.noConfusion h'
  · intro _
    intro hnil
    have h := hMid.keys
    have hnil' : s1.frame_stack = [] := hnil
    rw [hnil'] at h
    simp at h
    exact hg h

@[simp]
theorem runTrace_nil (P : Provider) (s : ModuleState) : runTrace P s [] = .ok s := rfl

theorem runTrace_cons (P : Provider) (s : ModuleState) (e : Event) (t : Nat)
    (tr : List (Event × Nat)) :
    runTrace P s ((e, t) :: tr) = (profile P e t s) >>= fun s2 => runTrace P s2 tr := by
  simp [runTrace, List.foldlM_cons]

theorem enginv_init (P : Provider) : EngInv P [] none initState := by
  constructor
  · intro h
    exact Instruction.noConfusion h
  · intro _
    rfl
  · intro x hx
    simp [initState] at hx
  · intro x hx
    simp [initState] at hx
  · intro c fn h
    simp [initState, alookup] at h
  · intro x hx
    simp [initState] at hx
  · intro f fs h _
    simp [initState] at h
  · intro c h
    exact Option.noConfusion h
  · intro _ h
    exact Instruction.noConfusion h
  · intro h
    exact Instruction.noConfusion h
  · intro h
    exact Instruction.noConfusion h
  · intro h
    exact Instruction.noConfusion h

theorem runTrace_wf {P : Provider} (hw : P.wellSized) :
    ∀ (tr : List (Event × Nat)) (g : List Nat) (ml : Option Nat) (s : ModuleState),
      EngInv P g ml s → wfAux P g ml tr = true →
      ∃ s', runTrace P s tr = .ok s' ∧ EngInv P (gAfter g tr) (mlAfter ml tr) s' := by
  intro tr
  induction tr with
  | nil =>
    intro g ml s hInv _
    exact ⟨s, rfl, hInv⟩
  | cons p tr ih =>
    obtain ⟨e, t⟩ := p
    intro g ml s hInv hwf
    cases hmlc : ml with
    | some c =>
      subst hmlc
      cases e with
      | line c' ln =>
        simp only [wfAux, Bool.and_eq_true, decide_eq_true_eq] at hwf
        obtain ⟨⟨hceq, hinr⟩, hrest⟩ := hwf
        subst hceq
        obtain ⟨s1, hfin, hMid, hlast⟩ := finishStep_ok (Event.line c' ln) t hw hInv
          (fun c0 h => by
            injection h with h'
            subst h'
            exact ⟨ln, rfl⟩)
        obtain ⟨hlastCall, f0, fs0, hst0, hkey0⟩ := hInv.ml_some c' rfl
        have hgeq : g = c' :: fs0.map FrameState.function_key := by
          have h := hInv.keys_nr (by rw [hlastCall]; simp)
          rw [hst0, List.map_cons, hkey0] at h
          exact h.symm
        have hInv' : EngInv P g none (profile_line s1 ln) := by
          refine begin_line_inv hMid ln ?_
          intro f fs hstf
          have hk := hMid.keys
          rw [hstf, List.map_cons, hgeq] at hk
          injection hk with hk1 hk2
          rw [hk1]
          simpa [inRange, Bool.and_eq_true, decide_eq_true_eq] using hinr
        have hprof : profile P (Event.line c' ln) t s = .ok (profile_line s1 ln) := by
          simp [profile, hfin, beginStep]
        obtain ⟨s', hrun, hInv2⟩ := ih g none (profile_line s1 ln) hInv' hrest
        refine ⟨s', ?_, ?_⟩
        · rw [runTrace_cons, hprof]
          simpa using hrun
        · simpa [gAfter, mlAfter] using hInv2
      | call c' => simp [wfAux] at hwf
      | ret c' => simp [wfAux] at hwf
      | ccall c' target => simp [wfAux] at hwf
      | cret c' => simp [wfAux] at hwf
      | exc c' => simp [wfAux] at hwf
      | cexc c' => simp [wfAux] at hwf
      | opcode c' => simp [wfAux] at hwf
    | none =>
      subst hmlc
      have hmlnone : ∀ c0 : Nat, (none : Option Nat) = some c0 → ∃ ln, e = Event.line c0 ln :=
        fun c0 h => Option.noConfusion h
      obtain ⟨s1, hfin, hMid, hlast⟩ := finishStep_ok e t hw hInv hmlnone
      have hnc : s1.last_instruction ≠ .kCall := by
        rw [hlast]
        exact hInv.ml_none rfl
      cases e with
      | line c ln =>
        have hprof : profile P (Event.line c ln) t s = .ok (profile_line s1 ln) := by
          simp [profile, hfin, beginStep]
        cases hgc : g with
        | nil =>
          subst hgc
          simp only [wfAux, Bool.true_and] at hwf
          have hInv' : EngInv P [] none (profile_line s1 ln) := by
            refine begin_line_inv hMid ln ?_
            intro f fs hstf
            have hk := hMid.keys
            rw [hstf] at hk
            exact List.noConfusion hk
          obtain ⟨s', hrun, hInv2⟩ := ih [] none (profile_line s1 ln) hInv' hwf
          refine ⟨s', ?_, ?_⟩
          · rw [runTrace_cons, hprof]
            simpa using hrun
          · simpa [gAfter, mlAfter] using hInv2
        | cons c0 g0 =>
          subst hgc
          simp only [wfAux, Bool.and_eq_true, decide_eq_true_eq] at hwf
          obtain ⟨⟨hceq, hinr⟩, hrest⟩ := hwf
          subst hceq
          have hInv' : EngInv P (c :: g0) none (profile_line s1 ln) := by
            refine begin_line_inv hMid ln ?_
            intro f fs hstf
            have hk := hMid.keys
            rw [hstf, List.map_cons] at hk
            injection hk with hk1 hk2
            rw [hk1]
            simpa [inRange, Bool.and_eq_true, decide_eq_true_eq] using hinr
          obtain ⟨s', hrun, hInv2⟩ := ih (c :: g0) none (profile_line s1 ln) hInv' hrest
          refine ⟨s', ?_, ?_⟩
          · rw [runTrace_cons, hprof]
            simpa using hrun
          · simpa [gAfter, mlAfter] using hInv2
      | call c =>
        simp only [wfAux] at hwf
        have hprof : profile P (Event.call c) t s = .ok (profile_call P s1 c) := by
          simp [profile, hfin, beginStep]
        have hInv' : EngInv P (c :: g) (some c) (profile_call P s1 c) :=
          begin_call_inv hMid c hnc
        obtain ⟨s', hrun, hInv2⟩ := ih (c :: g) (some c) (profile_call P s1 c) hInv' hwf
        refine ⟨s', ?_, ?_⟩
        · rw [runTrace_cons, hprof]
          simpa using hrun
        · simpa [gAfter, mlAfter] using hInv2
      | ret c =>
        cases hgc : g with
        | nil =>
          subst hgc
          simp [wfAux] at hwf
        | cons c0 g0 =>
          subst hgc
          simp only [wfAux, Bool.and_eq_true, decide_eq_true_eq] at hwf
          obtain ⟨hceq, hrest⟩ := hwf
          have hprof : profile P (Event.ret c) t s = .ok (profile_return s1) := by
            simp [profile, hfin, beginStep]
          have hInv' : EngInv P g0 none (profile_return s1) :=
            begin_ret_inv c0 hMid hnc
          obtain ⟨s', hrun, hInv2⟩ := ih g0 none (profile_return s1) hInv' hrest
          refine ⟨s', ?_, ?_⟩
          · rw [runTrace_cons, hprof]
            simpa using hrun
          · simpa [gAfter, mlAfter] using hInv2
      | ccall c target =>
        simp only [wfAux, Bool.and_eq_true] at hwf
        obtain ⟨hne, hrest⟩ := hwf
        have hne' : g ≠ [] := by
          intro h
          rw [h] at hne
          simp at hne
        have hprof : profile P (Event.ccall c target) t s = .ok (profile_c_call s1 target) := by
          simp [profile, hfin, beginStep]
        have hInv' : EngInv P g none (profile_c_call s1 target) :=
          begin_ccall_inv hMid target hne' hnc
        obtain ⟨s', hrun, hInv2⟩ := ih g none (profile_c_call s1 target) hInv' hrest
        refine ⟨s', ?_, ?_⟩
        · rw [runTrace_cons, hprof]
          simpa using hrun
        · simpa [gAfter, mlAfter] using hInv2
      | cret c =>
        simp only [wfAux, Bool.and_eq_true] at hwf
        obtain ⟨hne, hrest⟩ := hwf
        have hne' : g ≠ [] := by
          intro h
          rw [h] at hne
          simp at hne
        have hprof : profile P (Event.cret c) t s = .ok (profile_c_return s1) := by
          simp [profile, hfin, beginStep]
        have hInv' : EngInv P g none (profile_c_return s1) :=
          begin_cret_inv hMid hne' hnc
        obtain ⟨s', hrun, hInv2⟩ := ih g none (profile_c_return s1) hInv' hrest
        refine ⟨s', ?_, ?_⟩
        · rw [runTrace_cons, hprof]
          simpa using hrun
        · simpa [gAfter, mlAfter] using hInv2
      | exc c => simp [wfAux] at hwf
      | cexc c => simp [wfAux] at hwf
      | opcode c => simp [wfAux] at hwf

/-- The overhead nanoseconds currently recorded for a foreign name
(`0` when the name has no record yet). -/
def cOverheadOf (s : ModuleState) (name : String) : Nat :=
  ((alookup s.c_functions name).map BaseFunction.internal_time).getD 0

/-- Extractor: the per-line internal accumulator array of the record for
`code` in the final state of a run. -/
def recLineInternal (r : Except String ModuleState) (code : Nat) : Option (List Nat) :=
  match r with
  | .ok s => (alookup s.functions code).map FunctionRec.line_time_internal
  | .error _ => none

/-- Extractor: the overhead of the record for `code` in the final state
of a run. -/
def recOverhead (r : Except String ModuleState) (code : Nat) : Option Nat :=
  match r with
  | .ok s => (alookup s.functions code).map FunctionRec.internal_time
  | .error _ => none

/-- Extractor: the internal accumulator of line slot `idx` of the top
invocation in the final state of a run. -/
def frameLineInternal (r : Except String ModuleState) (idx : Nat) : Option Nat :=
  match r with
  | .ok s =>
    match s.frame_stack with
    | f :: _ => (f.lines.get? idx).map LineState.internal
    | [] => none
  | .error _ => none

/-- Extractor: the external accumulator of line slot `idx` of the top
invocation in the final state of a run. -/
def frameLineExternal (r : Except String ModuleState) (idx : Nat) : Option Nat :=
  match r with
  | .ok s =>
    match s.frame_stack with
    | f :: _ => (f.lines.get? idx).map LineState.external
    | [] => none
  | .error _ => none

/-- Extractor: the overhead accumulator of the top invocation in the
final state of a run. -/
def frameOverhead (r : Except String ModuleState) : Option Nat :=
  match r with
  | .ok s =>
    match s.frame_stack with
    | f :: _ => some f.internal
    | [] => none
  | .error _ => none

/-- Extractor: the call-stack depth in the final state of a run. -/
def stackDepth (r : Except String ModuleState) : Option Nat :=
  match r with
  | .ok s => some s.frame_stack.length
  | .error _ => none

theorem Pdemo_wellSized : Pdemo.wellSized := by
  intro c
  by_cases h0 : c = 0
  · subst h0
    norm_num [Pdemo, wordMod]
  · by_cases h1 : c = 1
    · subst h1
      norm_num [Pdemo, wordMod]
    · simp [Pdemo, h0, h1, wordMod]

/-- The spec scenario of C2: `[Line(L1), Call, Line(callee), Return]`
driven against `Pdemo` (caller is code `0` starting at line 10, callee is
code `1` starting at line 20; absolute line 12 is the caller's slot 1 and
absolute line 22 the callee's slot 1), with the trailing dispatch that
triggers the deferred return-finish. -/
def c2trace : List (Event × Nat) :=
  [(.call 0, 0), (.line 0 12, 0), (.call 1, 10000000), (.line 1 22, 5000000),
   (.ret 1, 2000000), (.line 0 12, 0)]

/-- The C3 scenario: a foreign call bracketed by a `ForeignException`
instead of a `ForeignReturn`, followed by a line event 1ms later. -/
def c3trace : List (Event × Nat) :=
  [(.call 0, 0), (.line 0 11, 0), (.ccall 0 ⟨7, "natfn"⟩, 0), (.cexc 0, 3000000),
   (.line 0 11, 1000000)]

/-- A fully nested single call/return sequence. -/
def c7trace : List (Event × Nat) :=
  [(.call 0, 0), (.line 0 11, 0), (.ret 0, 0)]

/-- A well-formed trace exercising the foreign-call bracketing path. -/
def c4trace : List (Event × Nat) :=
  [(.call 0, 0), (.line 0 11, 0), (.ccall 0 ⟨7, "natfn"⟩, 0), (.cret 0, 5000),
   (.line 0 12, 3000), (.ret 0, 0), (.line 0 11, 0)]

@[simp]
theorem exbind_error {α β : Type} (e : String) (k : α → Except String β) :
    ((Except.error e : Except String α) >>= k) = Except.error e := rfl

/-- Failing input for the C1 fold: one invocation of code `0` with two
line slots, all accumulated time (5ms internal) sitting in slot 1,
folding into a fresh record whose accumulators are all zero. -/
def c1frame : FrameState :=
  { starting_line := 10
    current_line := 12
    function_key := 0
    lines := [{ internal := 0, external := 0 }, { internal := 5000000, external := 0 }]
    internal := 0 }

/-- The engine state at the moment the deferred return-finish fires on
`c1frame`. -/
def c1state : ModuleState :=
  { functions := [(0, { name := "caller", internal_time := 0,
                        lines := ["  line11", "  line12"],
                        line_time := [0, 0], line_time_internal := [0, 0] })]
    c_functions := []
    frame_stack := [c1frame]
    last_instruction := .kReturn
    last_c_name := "" }

/-- C1: the claim states the fold is index-aligned
(`lineInternal[i] += invocation.lines[i].internal` for every `i`).  The
code's fold loop never increments its index variable, so the 5ms held in
the invocation's slot 1 is added to the record's slot 0: the fold of
`c1state` yields record arrays `[5000000, 0]`, whereas the claimed
index-aligned fold would yield `[0, 5000000]`. -/
theorem c1_fold_collapses_to_slot_zero :
    recLineInternal (pop_frame c1state) 0 = some [5000000, 0] ∧
    [5000000, 0] ≠ ([0, 5000000] : List Nat) := by
  decide

/-- C2 counterexample: in the spec scenario the caller's current line
gains only 2ms external on the fold (the per-line total of the callee's
invocation), not the claimed 7ms: `FrameState::total_time` sums only the
line accumulators, and the 5ms call-setup interval was attributed
directly to the callee record's overhead, not to the invocation. -/
theorem c2_caller_gains_2ms_not_7ms :
    frameLineExternal (runTrace Pdemo initState c2trace) 1 = some 2000000 ∧
    (2000000 : Nat) ≠ 7000000 := by
  decide

/-- C2 amended: caller's line slot 1 internal gains 10ms; the callee
record's overhead gains 5ms (attributed at the dispatch after the Call);
the callee invocation's line slot 1 internal gains 2ms; on the deferred
return-finish the callee's line total of 2ms folds into its record (into
slot 0, by the C1 fold defect) and the caller's current line gains 2ms
external — the 5ms overhead is not part of the propagated total. -/
theorem c2_amended_scenario :
    frameLineInternal (runTrace Pdemo initState c2trace) 1 = some 10000000 ∧
    recOverhead (runTrace Pdemo initState c2trace) 1 = some 5000000 ∧
    frameLineInternal (runTrace Pdemo initState (c2trace.take 5)) 1 = some 2000000 ∧
    recLineInternal (runTrace Pdemo initState c2trace) 1 = some [2000000, 0] ∧
    frameLineExternal (runTrace Pdemo initState c2trace) 1 = some 2000000 := by
  decide

/-- C3 counterexample: the interval bracketed by a `ForeignException`
(3ms after the foreign call, then 1ms until the next line event) is not
dropped: the begin phase of `PyTrace_C_EXCEPTION` records `kCReturn`, so
the 1ms interval ending at the next dispatch is added to the top
invocation's overhead accumulator (0 before, 1ms after). -/
theorem c3_foreign_exception_interval_is_attributed :
    frameOverhead (runTrace Pdemo initState (c3trace.take 4)) = some 0 ∧
    frameOverhead (runTrace Pdemo initState c3trace) = some 1000000 ∧
    (1000000 : Nat) ≠ 0 := by
  decide

/-- C3 amended: the begin phases of `Exception` and `ForeignException`
perform no accumulator update, and the finish rules keyed by the
exception kinds are no-ops; but the recorded previous kind is never an
exception kind — an `Exception` dispatch leaves the recorded kind (and
the whole state) unchanged, and a `ForeignException` dispatch records
`ForeignReturn`, so the interval ending at the next dispatch is
attributed under those kinds rather than dropped. -/
theorem c3_amended_exception_rules (P : Provider) (s : ModuleState) (e : Event) (t c : Nat) :
    finishStep { s with last_instruction := .kException } e t =
      .ok { s with last_instruction := .kException } ∧
    finishStep { s with last_instruction := .kCException } e t =
      .ok { s with last_instruction := .kCException } ∧
    beginStep P s (.exc c) = s ∧
    beginStep P s (.cexc c) = { s with last_instruction := .kCReturn } :=
  ⟨rfl, rfl, rfl, rfl⟩

/-- C7 counterexample: the fully nested, well-formed sequence
`[Call, Line, Return]` leaves the stack at depth 1 after its last event
is dispatched — the frame is only popped by the deferred finish of the
Return at the *next* dispatch, so the depth does not return to 0 at the
end of the sequence itself. -/
theorem c7_depth_one_after_balanced_trace :
    wfAux Pdemo [] none c7trace = true ∧
    gAfter [] c7trace = [] ∧
    stackDepth (runTrace Pdemo initState c7trace) = some 1 ∧
    (1 : Nat) ≠ 0 := by
  decide

/-- C8: `stop()` touches no `Module` member and `start()` only resets
`last_instruction_` to `kOrigin` (whose finish rule is a no-op), so a
stop/start cycle preserves every interpreted and foreign record, the
frame stack, and the pending foreign name, and any events dispatched
after the restart run against exactly those preserved stores. -/
theorem c8_stop_start_preserves_state (s : ModuleState) :
    (Module.start (Module.stop s)).functions = s.functions ∧
    (Module.start (Module.stop s)).c_functions = s.c_functions ∧
    (Module.start (Module.stop s)).frame_stack = s.frame_stack ∧
    Module.start (Module.stop s) = { s with last_instruction := .kOrigin } ∧
    (∀ (P : Provider) (tr : List (Event × Nat)),
      runTrace P (Module.start (Module.stop s)) tr =
        runTrace P { s with last_instruction := .kOrigin } tr) :=
  ⟨rfl, rfl, rfl, rfl, fun _ _ => rfl⟩

/-- C9: `Module::dump` never reads its destination parameter — its body
streams the report to the fixed standard output stream — so for one and
the same accumulated state any two destination strings produce the
identical report stream, and the return value is always the status 0. -/
theorem c9_dump_ignores_destination (s : ModuleState) (p q : String) (out : List RItem × Nat) :
    Module.dump s p = Module.dump s q ∧ (Module.dump s p = .ok out → out.2 = 0) := by
  refine ⟨rfl, ?_⟩
  intro h
  unfold Module.dump at h
  cases hx : s.functions.foldlM (fun acc pr => do
      let its ← reportFunction pr.2
      .ok (acc ++ its)) ([] : List RItem) with
  | error e =>
    rw [hx] at h
    simp at h
  | ok fItems =>
    rw [hx] at h
    simp at h
    rw [← h]

/-- C4: over any well-formed event stream (`wfAux`, the guarantees of the
CPython event source) the engine never reaches the out-of-range error
branch of `FrameState::current_line`: the run returns `.ok` (every
fallible access in the model surfaces as `.error`), and whenever the
recorded previous kind is `kCCall` — so the next dispatch takes the
foreign-call finish path through the current-line accessor — the stack
is non-empty and the index `current_line - starting_line - 1` of the top
invocation is in bounds. -/
theorem c4_ccall_line_access_in_bounds (P : Provider) (tr : List (Event × Nat))
    (hw : P.wellSized) (hwf : wfAux P [] none tr = true) :
    ∃ s', runTrace P initState tr = .ok s' ∧
      (s'.last_instruction = .kCCall →
        ∃ f fs, s'.frame_stack = f :: fs ∧ f.currentIdx < f.lines.length) := by
  obtain ⟨s', hrun, hInv⟩ := runTrace_wf hw tr [] none initState (enginv_init P) hwf
  refine ⟨s', hrun, ?_⟩
  intro hcc
  have hne := hInv.cc_ne hcc
  cases hst : s'.frame_stack with
  | nil => exact absurd hst hne
  | cons f fs =>
    have hgf := hInv.frames_good f (by rw [hst]; exact List.mem_cons_self f fs)
    have hgc := hInv.cur_head f fs hst (by rw [hcc]; simp)
    obtain ⟨-, hlt⟩ := goodFrame_idx hw hgf hgc
    exact ⟨f, fs, rfl, hlt⟩

/-- Witness for C4 at a concrete well-formed trace that exercises the
foreign-call bracketing path. -/
theorem c4_witness :
    ∃ s', runTrace Pdemo initState c4trace = .ok s' ∧
      (s'.last_instruction = .kCCall →
        ∃ f fs, s'.frame_stack = f :: fs ∧ f.currentIdx < f.lines.length) :=
  c4_ccall_line_access_in_bounds Pdemo c4trace Pdemo_wellSized (by decide)

/-- C7 amended: over well-formed traces the run never fails (so the
stack is never popped while empty), the engine depth equals the ghost
nesting depth plus the single deferred pop pending while the previous
event is a Return — one frame pushed per Call, one popped per Return at
the dispatch *after* the Return. Once the fully-nested sequence is
balanced, the finish phase of the very next dispatch, whatever event it
carries, performs the pending pop and leaves the stack empty; a further
Line dispatch, whose begin phase pushes no frame, therefore drives the
depth to exactly 0. -/
theorem c7_amended_deferred_pop (P : Provider) (tr : List (Event × Nat))
    (hw : P.wellSized) (hwf : wfAux P [] none tr = true) :
    ∃ s', runTrace P initState tr = .ok s' ∧
      s'.frame_stack.length =
        (gAfter [] tr).length + (if s'.last_instruction = .kReturn then 1 else 0) ∧
      (gAfter [] tr = [] → ∀ ev e, ∃ s1,
        finishStep s' ev e = .ok s1 ∧ s1.frame_stack = []) ∧
      (gAfter [] tr = [] → ∀ c ln e, ∃ s'',
        profile P (.line c ln) e s' = .ok s'' ∧ s''.frame_stack = []) := by
  obtain ⟨s', hrun, hInv⟩ := runTrace_wf hw tr [] none initState (enginv_init P) hwf
  have hmlgen : ∀ ev, gAfter [] tr = [] →
      ∀ c0, mlAfter none tr = some c0 → ∃ ln', ev = Event.line c0 ln' := by
    intro ev hbal c0 h
    obtain ⟨hlast, f, fs, hstf, -⟩ := hInv.ml_some c0 h
    have hk := hInv.keys_nr (by rw [hlast]; simp)
    rw [hstf, hbal] at hk
    exact List.noConfusion hk
  refine ⟨s', hrun, ?_, ?_, ?_⟩
  · by_cases hret : s'.last_instruction = .kReturn
    · obtain ⟨fr, rest, hst, hkeys⟩ := hInv.keys_ret hret
      rw [hst, if_pos hret, ← hkeys]
      simp
    · rw [if_neg hret]
      have hk := hInv.keys_nr hret
      rw [← hk]
      simp
  · intro hbal ev e
    obtain ⟨s1, hfin, hMid, -⟩ := finishStep_ok ev e hw hInv (hmlgen ev hbal)
    refine ⟨s1, hfin, ?_⟩
    have hk := hMid.keys
    rw [hbal] at hk
    exact List.map_eq_nil_iff.mp hk
  · intro hbal c ln e
    obtain ⟨s1, hfin, hMid, -⟩ :=
      finishStep_ok (Event.line c ln) e hw hInv (hmlgen (Event.line c ln) hbal)
    have hstack1 : s1.frame_stack = [] := by
      have hk := hMid.keys
      rw [hbal] at hk
      exact List.map_eq_nil_iff.mp hk
    refine ⟨beginStep P s1 (Event.line c ln), ?_, ?_⟩
    · simp [profile, hfin]
    · show (profile_line s1 ln).frame_stack = []
      simp [profile_line, hstack1]

/-- Witness for the amended C7 at the balanced trace `[Call, Line,
Return]`. -/
theorem c7_amended_witness :
    ∃ s', runTrace Pdemo initState c7trace = .ok s' ∧
      s'.frame_stack.length =
        (gAfter [] c7trace).length + (if s'.last_instruction = .kReturn then 1 else 0) ∧
      (gAfter [] c7trace = [] → ∀ ev e, ∃ s1,
        finishStep s' ev e = .ok s1 ∧ s1.frame_stack = []) ∧
      (gAfter [] c7trace = [] → ∀ c ln e, ∃ s'',
        profile Pdemo (.line c ln) e s' = .ok s'' ∧ s''.frame_stack = []) :=
  c7_amended_deferred_pop Pdemo c7trace Pdemo_wellSized (by decide)

/-- Extractor: the overhead recorded for a foreign name in the final
state of a run. -/
def cOverheadR (r : Except String ModuleState) (name : String) : Option Nat :=
  match r with
  | .ok s => some (cOverheadOf s name)
  | .error _ => none

/-- Extractor: how many foreign records exist in the final state of a
run. -/
def cFunsCount (r : Except String ModuleState) : Option Nat :=
  match r with
  | .ok s => some s.c_functions.length
  | .error _ => none

/-- The C5 scenario: a foreign call, its return 3ms later, then a line
event 1ms after that, issued from an invocation of code `0` whose
current line (absolute 12, slot 1) has been observed. -/
def c5trace : List (Event × Nat) :=
  [(.call 0, 0), (.line 0 12, 0), (.ccall 0 ⟨7, "natfn"⟩, 0), (.cret 0, 3000000),
   (.line 0 12, 1000000)]

/-- C5: after `[ForeignCall, (3ms) ForeignReturn, (1ms) Line]` the
foreign record's overhead grew by 3ms, the caller's current line slot
gained 3ms external, and the caller's invocation overhead gained 1ms
(all three accumulators were 0 when the foreign call was dispatched,
as the `take 3` prefix shows). -/
theorem c5_foreign_bracketing_attribution :
    cOverheadR (runTrace Pdemo initState c5trace) "natfn" = some 3000000 ∧
    frameLineExternal (runTrace Pdemo initState c5trace) 1 = some 3000000 ∧
    frameOverhead (runTrace Pdemo initState c5trace) = some 1000000 ∧
    cOverheadR (runTrace Pdemo initState (c5trace.take 3)) "natfn" = some 0 ∧
    frameLineExternal (runTrace Pdemo initState (c5trace.take 3)) 1 = some 0 ∧
    frameOverhead (runTrace Pdemo initState (c5trace.take 3)) = some 0 := by
  decide

/-- The caller context for the C6 runs: one invocation of code `0`
executing absolute line 12 (slot 1), no foreign records yet, previous
event kind neutral. -/
def c6start : ModuleState :=
  { functions := []
    c_functions := []
    frame_stack := [{ starting_line := 10, current_line := 12, function_key := 0,
                      lines := [{ internal := 0, external := 0 },
                                { internal := 0, external := 0 }],
                      internal := 0 }]
    last_instruction := .kOrigin
    last_c_name := "" }

/-- Two bracketed foreign calls with targets `t1` and `t2`, attributing
`e1` and `e3` nanoseconds respectively. -/
def c6trace (t1 t2 : CTarget) (e0 e1 e2 e3 e4 : Nat) : List (Event × Nat) :=
  [(.ccall 0 t1, e0), (.cret 0, e1), (.ccall 0 t2, e2), (.cret 0, e3), (.line 0 12, e4)]


/-- C6: the foreign store is keyed purely by the printed representation
string.  Part 1: dispatching a foreign-call event depends on the target
only through its printed string — two distinct native callables
(different identities) with equal printed strings drive the engine
identically, so their overhead accumulates into one record.  Part 2:
registering an already-known name leaves the store — and in particular
the existing accumulator — untouched (`emplace` never overwrites).
Parts 3 and 4: two bracketed foreign calls of 3ms and 4ms from targets
with distinct identities (7 and 8) collapse into a single record holding
7ms when their printed names are equal, and yield two separate records
holding 3ms and 4ms when their printed names differ. -/
theorem c6_foreign_records_keyed_by_printed_name :
    (∀ (P : Provider) (s : ModuleState) (c el : Nat) (t1 t2 : CTarget),
        t1.pstr = t2.pstr →
        profile P (.ccall c t1) el s = profile P (.ccall c t2) el s) ∧
    (∀ (s : ModuleState) (name : String),
        (alookup s.c_functions name).isSome → add_c_function s name = s) ∧
    (cOverheadR (runTrace Pdemo c6start
        (c6trace ⟨7, "nm"⟩ ⟨8, "nm"⟩ 0 3000000 0 4000000 0)) "nm" = some 7000000 ∧
     cFunsCount (runTrace Pdemo c6start
        (c6trace ⟨7, "nm"⟩ ⟨8, "nm"⟩ 0 3000000 0 4000000 0)) = some 1) ∧
    (cOverheadR (runTrace Pdemo c6start
        (c6trace ⟨7, "nm"⟩ ⟨8, "other"⟩ 0 3000000 0 4000000 0)) "nm" = some 3000000 ∧
     cOverheadR (runTrace Pdemo c6start
        (c6trace ⟨7, "nm"⟩ ⟨8, "other"⟩ 0 3000000 0 4000000 0)) "other" = some 4000000 ∧
     cFunsCount (runTrace Pdemo c6start
        (c6trace ⟨7, "nm"⟩ ⟨8, "other"⟩ 0 3000000 0 4000000 0)) = some 2) := by
  refine ⟨?_, ?_, by decide, by decide⟩
  · intro P s c el t1 t2 h
    unfold profile
    have h1 : finishStep s (.ccall c t1) el = finishStep s (.ccall c t2) el := by
      unfold finishStep
      cases s.last_instruction <;> rfl
    rw [h1]
    congr 1
    funext s1
    show Except.ok (profile_c_call s1 t1) = Except.ok (profile_c_call s1 t2)
    unfold profile_c_call
    rw [h]
  · intro s name h
    unfold add_c_function
    simp [h]

/-- Witness for the quantified parts of C6: targets with identities 7
and 8 but one printed name drive the engine identically, and
re-registering a name that already holds 9ms of overhead leaves the
store unchanged. -/
theorem c6_witness :
    profile Pdemo (.ccall 0 ⟨7, "nm"⟩) 5 initState =
      profile Pdemo (.ccall 0 ⟨8, "nm"⟩) 5 initState ∧
    add_c_function
      ⟨[], [("nm", ⟨"nm", 9000000⟩)], [], .kOrigin, ""⟩ "nm" =
      ⟨[], [("nm", ⟨"nm", 9000000⟩)], [], .kOrigin, ""⟩ :=
  ⟨c6_foreign_records_keyed_by_printed_name.1 Pdemo initState 0 5 ⟨7, "nm"⟩ ⟨8, "nm"⟩ rfl,
   c6_foreign_records_keyed_by_printed_name.2.1
     ⟨[], [("nm", ⟨"nm", 9000000⟩)], [], .kOrigin, ""⟩ "nm" (by decide)⟩

/-- C10: for a callable whose metadata provider returns `n ≥ 1` source
lines, the snapshot kept by the engine drops the first returned line, so
the record created at first call and the line array of every pushed
invocation all have length `n - 1`; line accumulation indexes that
shortened array with `current_line - starting_line - 1` (the `size_t`
expression equals the arithmetic difference whenever a body line is
current), and a current line at or before `starting_line` — in
particular the callable's first source line itself — can never receive
attributed time: both accumulation paths hit the out-of-range error
branch instead. -/
theorem c10_line_arrays_drop_first_source_line (P : Provider) (s : ModuleState) (c : Nat)
    (h1 : 1 ≤ (P.src c).length) (h2 : alookup s.functions c = none) :
    (getLinesList P c).length = (P.src c).length - 1 ∧
    (∃ fn, alookup (add_function P s c).functions c = some fn ∧
      fn.lines.length = (P.src c).length - 1 ∧
      fn.line_time.length = (P.src c).length - 1 ∧
      fn.line_time_internal.length = (P.src c).length - 1) ∧
    (∃ f, (emplace_frame P s c).frame_stack = f :: s.frame_stack ∧
      f.lines.length = (P.src c).length - 1 ∧
      f.starting_line = P.firstLine c ∧ f.current_line = 0) ∧
    (∀ f : FrameState, f.starting_line + 1 ≤ f.current_line → f.current_line < wordMod →
      f.currentIdx = f.current_line - f.starting_line - 1) ∧
    (∀ (f : FrameState) (t : Nat), f.current_line ≤ f.starting_line →
      f.starting_line + 1 + f.lines.length ≤ wordMod →
      f.addInternalCurrent t = .error "vector_at_out_of_range" ∧
      f.addExternalCurrent t = .error "vector_at_out_of_range") := by
  refine ⟨?_, ?_, ?_, ?_, ?_⟩
  · simp [getLinesList]
  · have hns : (alookup s.functions c).isSome = false := by
      rw [h2]
      rfl
    unfold add_function
    rw [hns]
    simp only [Bool.false_eq_true, if_false]
    refine ⟨{ name := P.fname c, internal_time := 0, lines := getLinesList P c,
              line_time := List.replicate (getLinesList P c).length 0,
              line_time_internal := List.replicate (getLinesList P c).length 0 },
      ?_, ?_, ?_, ?_⟩
    · rw [alookup_append_none _ _ c h2]
      simp [alookup]
    · simp [getLinesList]
    · simp [getLinesList]
    · simp [getLinesList]
  · refine ⟨_, rfl, ?_, rfl, rfl⟩
    simp [getLinesList]
  · intro f hf1 hf2
    exact stIdx_eq _ _ hf1 hf2
  · intro f t hc hb
    have hnone : f.lines.get? f.currentIdx = none := by
      rw [List.get?_eq_none]
      exact stIdx_big f.current_line f.starting_line f.lines.length hc hb
    constructor
    · unfold FrameState.addInternalCurrent
      rw [hnone]
    · unfold FrameState.addExternalCurrent
      rw [hnone]

/-- Witness for C10: the caller of `Pdemo` (code 0, three source lines
starting at line 10) gets two-slot arrays everywhere; the invocation at
absolute line 12 indexes slot 1; an invocation still at the starting
line hits the error branch on both accumulation paths. -/
theorem c10_witness :
    (getLinesList Pdemo 0).length = (Pdemo.src 0).length - 1 ∧
    (∃ fn, alookup (add_function Pdemo initState 0).functions 0 = some fn ∧
      fn.lines.length = (Pdemo.src 0).length - 1 ∧
      fn.line_time.length = (Pdemo.src 0).length - 1 ∧
      fn.line_time_internal.length = (Pdemo.src 0).length - 1) ∧
    (∃ f, (emplace_frame Pdemo initState 0).frame_stack = f :: initState.frame_stack ∧
      f.lines.length = (Pdemo.src 0).length - 1 ∧
      f.starting_line = Pdemo.firstLine 0 ∧ f.current_line = 0) ∧
    (FrameState.currentIdx ⟨10, 12, 0, [], 0⟩ = 12 - 10 - 1) ∧
    (FrameState.addInternalCurrent ⟨10, 10, 0, [⟨0, 0⟩, ⟨0, 0⟩], 0⟩ 5 =
        .error "vector_at_out_of_range" ∧
     FrameState.addExternalCurrent ⟨10, 10, 0, [⟨0, 0⟩, ⟨0, 0⟩], 0⟩ 5 =
        .error "vector_at_out_of_range") := by
  obtain ⟨a, b, c', d, e⟩ :=
    c10_line_arrays_drop_first_source_line Pdemo initState 0 (by decide) (by decide)
  exact ⟨a, b, c',
    d ⟨10, 12, 0, [], 0⟩ (by decide) (by decide),
    e ⟨10, 10, 0, [⟨0, 0⟩, ⟨0, 0⟩], 0⟩ 5 (by decide) (by decide)⟩

/-- Witness for C9 at two concrete destinations and the empty store. -/
theorem c9_witness :
    Module.dump initState "/tmp/a" = Module.dump initState "/tmp/b" ∧
    (([], 0) : List RItem × Nat).2 = 0 :=
  ⟨(c9_dump_ignores_destination initState "/tmp/a" "/tmp/b" ([], 0)).1,
   (c9_dump_ignores_destination initState "/tmp/a" "/tmp/b" ([], 0)).2 rfl⟩
